import Mathlib

/-!
Verification of the media-processing worker (`src/main.rs`) against its
natural-language specification.

The Rust source is shallowly embedded: pure computations become Lean
functions over `Nat`/`Int`/`ℚ` and `List Char` (Rust `String`s are modelled
as their character lists); effectful code (database updates, file deletes,
external processes, HTTP calls) is modelled by passing the outcome of each
external operation as an explicit parameter and, where ordering matters, by
an explicit event trace.  Rust `f32`/`f64` arithmetic is idealized as exact
rational arithmetic (`ℚ`); `f64::round` is `⌊x + 1/2⌋` (the two agree on the
nonnegative values arising here).

Layout: all definitions first, then helper lemmas, then one theorem per
claim (with witnesses and counterexamples).
-/

/-! # Definitions -/

/-! ## Text utilities (models of the Rust `str` operations used by the code) -/

/-- The character for a decimal digit; defined on `d % 10`. -/
def digitToChar (d : ℕ) : Char :=
  match d % 10 with
  | 0 => '0' | 1 => '1' | 2 => '2' | 3 => '3' | 4 => '4'
  | 5 => '5' | 6 => '6' | 7 => '7' | 8 => '8' | _ => '9'

/-- Decimal rendering of a natural number (model of Rust `format!` with `{}`). -/
def decStr (n : ℕ) : List Char :=
  if n = 0 then ['0'] else ((Nat.digits 10 n).reverse.map digitToChar)

/-- Zero-padded decimal rendering with minimum width `w`
(model of Rust `{:0w}` formatting). -/
def padZeros (w : ℕ) (n : ℕ) : List Char :=
  List.replicate (w - (decStr n).length) '0' ++ decStr n

/-- ASCII whitespace test (model of the whitespace class used by Rust
`str::trim` on the ASCII text handled here). -/
def isRustWs (c : Char) : Bool :=
  c = ' ' || c = '\t' || c = '\n' || c = '\r'

/-- Model of Rust `str::trim`: strip leading and trailing whitespace. -/
def trimChars (s : List Char) : List Char :=
  ((s.dropWhile isRustWs).reverse.dropWhile isRustWs).reverse

/-- Model of Rust `str::trim_end`: strip trailing whitespace. -/
def trimEndChars (s : List Char) : List Char :=
  (s.reverse.dropWhile isRustWs).reverse

/-- Model of Rust `str::split(sep)`: split at every occurrence of `sep`. -/
def splitChar (sep : Char) : List Char → List (List Char)
  | [] => [[]]
  | c :: rest =>
    if c = sep then [] :: splitChar sep rest
    else
      match splitChar sep rest with
      | [] => [[c]]
      | p :: ps => (c :: p) :: ps

/-- Model of Rust `str::lines` restricted to what the code reads from it:
the list of newline-separated pieces (empty input yields no lines). -/
def linesOf (s : List Char) : List (List Char) :=
  if s = [] then [] else splitChar '\n' s

/-- Numeric value of a decimal digit character. -/
def charVal (c : Char) : ℕ := c.toNat - 48

/-- Value of a list of decimal digit characters. -/
def digitsVal (l : List Char) : ℕ := l.foldl (fun a c => a * 10 + charVal c) 0

/-- Model of Rust `str::parse::<f64>()` (idealized to exact rationals) on the
decimal fragment of the grammar exercised by the program:
`digits` or `digits.digits` (either side of the dot possibly empty, not both).
Rust also accepts signs, exponents and `inf`; none of those occur in the
strings the worker parses. -/
def parseF64 (s : List Char) : Option ℚ :=
  let ip := s.takeWhile Char.isDigit
  match s.dropWhile Char.isDigit with
  | [] => if ip = [] then none else some ((digitsVal ip : ℕ) : ℚ)
  | '.' :: frac =>
    if frac.all Char.isDigit ∧ (ip ≠ [] ∨ frac ≠ []) then
      some ((digitsVal ip : ℚ) + (digitsVal frac : ℚ) / (10 : ℚ) ^ frac.length)
    else none
  | _ => none

/-- Model of Rust `str::parse::<i64>()` on the inputs the code feeds it
(optional minus sign and decimal digits). -/
def parseI64 (s : List Char) : Option ℤ :=
  match s with
  | '-' :: rest =>
    if rest ≠ [] ∧ rest.all Char.isDigit then some (-(digitsVal rest : ℤ)) else none
  | _ => if s ≠ [] ∧ s.all Char.isDigit then some ((digitsVal s : ℕ) : ℤ) else none

/-- Model of Rust `str::contains(needle)` / substring search. -/
def containsSub (needle haystack : List Char) : Bool :=
  decide (needle <:+: haystack)

/-- ASCII lowercase conversion of one character (model of Rust
`str::to_lowercase` on the ASCII-dominated track titles). -/
def asciiLower (c : Char) : Char :=
  if 'A' ≤ c ∧ c ≤ 'Z' then Char.ofNat (c.toNat + 32) else c

/-- Model of Rust `str::to_lowercase`. -/
def lowerChars (s : List Char) : List Char := s.map asciiLower

/-- Rust `f64::round` cast to `u32`, on the nonnegative values used here. -/
def roundToU32 (q : ℚ) : ℕ := (⌊q + 1/2⌋).toNat

/-- Rust `%` on `f64` (remainder), for the nonnegative operands used here. -/
def rustFmod (a b : ℚ) : ℚ := a - b * ⌊a / b⌋

/-! ## C10: `probe_audio_duration` (src/main.rs lines 1581-1599)

The external `ffprobe` invocation is abstracted by its outcome:
`none` models a spawn error or a non-zero exit status, `some out` models a
successful exit with stdout `out`. -/

/-- Embedding of `probe_audio_duration`: on success, parse the first stdout
line (trimmed) as a float; on any failure fall back to `3600.0`. -/
def probe_audio_duration (probe : Option (List Char)) : ℚ :=
  match probe with
  | none => 3600
  | some out => (((linesOf out).head?).bind (fun l => parseF64 (trimChars l))).getD 3600

/-! ## C2: the worker-loop dispatch (`process`, src/main.rs lines 738-828)

For one polled concept the dispatch decision depends on: whether the raw
upload file exists, the classifier result `detect_file_type`, and the type
column of the database row.  Everything after the decision (the type-specific
pipelines) is abstracted into the chosen action. -/

/-- The action the worker loop takes for one unprocessed concept. -/
inductive DispatchAction where
  | giveupMarkProcessed
  | runVideo
  | runPicture
  | runAudio
  | runPdf
  | unknownMarkProcessed
  deriving DecidableEq, Repr

/-- Embedding of the per-concept dispatch in `process`: a missing input file
is terminally acked; otherwise the detected type, falling back to the
database type when detection returns `None`, selects the pipeline; an
unrecognized resulting type is marked processed with no artifacts. -/
def process (fileExists : Bool) (detected : Option (List Char)) (dbType : List Char) :
    DispatchAction :=
  if fileExists = false then DispatchAction.giveupMarkProcessed
  else
    let actualType := detected.getD dbType
    if actualType = "video".data then DispatchAction.runVideo
    else if actualType = "picture".data then DispatchAction.runPicture
    else if actualType = "audio".data then DispatchAction.runAudio
    else if actualType = "document_pdf".data then DispatchAction.runPdf
    else DispatchAction.unknownMarkProcessed

/-! ## C1: commit ordering in the per-type pipelines
(`process_video` lines 830-872, `process_picture` lines 874-896,
`process_audio` lines 898-941, `process_document_pdf` lines 943-993)

Each pipeline is embedded as the trace of its store/filesystem mutations,
in program order, parameterized by the outcomes of the mandatory transcode
(or PDF thumbnail) and of the database update.  The concurrent
subtitle/chapter arms touch neither the processed flag nor the raw input
file and are omitted from the trace. -/

/-- One store or filesystem mutation-relevant event of a pipeline run. -/
inductive CommitEv where
  | transcodeDone (ok : Bool)
  | dbSetProcessed (ok : Bool)
  | deleteRawFile
  | renameRawToDocument
  deriving DecidableEq, Repr

/-- Embedding of `process_video`: the transcode finishes with result
`transcodeOk`; only on success is the store updated, and only if the update
succeeds is the raw input deleted.  Returns the event trace and the
function's Ok/Err result. -/
def process_video (transcodeOk dbOk : Bool) : List CommitEv × Bool :=
  ([CommitEv.transcodeDone transcodeOk] ++
    (if transcodeOk then
      CommitEv.dbSetProcessed dbOk :: (if dbOk then [CommitEv.deleteRawFile] else [])
    else []),
   transcodeOk && dbOk)

/-- Embedding of `process_picture` (same commit structure as video). -/
def process_picture (transcodeOk dbOk : Bool) : List CommitEv × Bool :=
  ([CommitEv.transcodeDone transcodeOk] ++
    (if transcodeOk then
      CommitEv.dbSetProcessed dbOk :: (if dbOk then [CommitEv.deleteRawFile] else [])
    else []),
   transcodeOk && dbOk)

/-- Embedding of `process_audio` (same commit structure as video). -/
def process_audio (transcodeOk dbOk : Bool) : List CommitEv × Bool :=
  ([CommitEv.transcodeDone transcodeOk] ++
    (if transcodeOk then
      CommitEv.dbSetProcessed dbOk :: (if dbOk then [CommitEv.deleteRawFile] else [])
    else []),
   transcodeOk && dbOk)

/-- Embedding of `process_document_pdf`: the thumbnail arm is mandatory,
text extraction is not; on thumbnail success the store is updated, and only
after a successful update is the input renamed to `document.pdf`. -/
def process_document_pdf (thumbOk textOk dbOk renameOk : Bool) : List CommitEv × Bool :=
  if thumbOk then
    (CommitEv.transcodeDone thumbOk ::
      CommitEv.dbSetProcessed dbOk ::
        (if dbOk then [CommitEv.renameRawToDocument] else []),
     thumbOk && dbOk && renameOk && (textOk || true))
  else ([CommitEv.transcodeDone thumbOk], false)

/-- Trace validity scan: carrying flags for whether a successful transcode
and a successful store update have already occurred, require every
`dbSetProcessed` to come after a successful transcode and every raw-file
delete/rename to come after a successful store update. -/
def commitOkAux : Bool → Bool → List CommitEv → Bool
  | _, _, [] => true
  | t, c, CommitEv.transcodeDone ok :: rest => commitOkAux (t || ok) c rest
  | t, c, CommitEv.dbSetProcessed ok :: rest => t && commitOkAux t (c || ok) rest
  | t, c, CommitEv.deleteRawFile :: rest => c && commitOkAux t c rest
  | t, c, CommitEv.renameRawToDocument :: rest => c && commitOkAux t c rest

/-- A trace commits in the right order (see `commitOkAux`). -/
def commit_order_ok (tr : List CommitEv) : Bool := commitOkAux false false tr

/-- A trace neither sets the processed flag nor touches the raw input file. -/
def no_commit_effects (tr : List CommitEv) : Bool :=
  tr.all (fun e =>
    match e with
    | CommitEv.dbSetProcessed _ => false
    | CommitEv.deleteRawFile => false
    | CommitEv.renameRawToDocument => false
    | _ => true)

/-! ## C8: `detect_file_type` (src/main.rs lines 470-736)

Every `ffprobe` invocation is abstracted by its outcome:
`none` models a spawn error or a non-zero exit status, `some out` models a
successful exit with stdout `out`.  The probes appear as parameters in the
order the code issues them. -/

/-- Both-streams fallback: classify on format duration alone
(duration > 5 s means video, otherwise audio; a failed probe means audio). -/
def detect_both_duration_fallback (durProbe2 : Option (List Char)) : Option (List Char) :=
  match durProbe2 with
  | some out =>
    let duration := (parseF64 (trimChars out)).getD 0
    if duration > 5 then some ("video".data) else some ("audio".data)
  | none => some ("audio".data)

/-- Parse the frame-rate field of the stream-info probe: a `num/den`
fraction, or a plain float; parse failures degrade to `0`. -/
def parseFpsField (fpsStr : List Char) : ℚ :=
  if fpsStr.contains '/' then
    let parts := splitChar '/' fpsStr
    if parts.length = 2 then
      let num := (parseF64 (parts.getD 0 [])).getD 0
      let den := (parseF64 (parts.getD 1 [])).getD 1
      if den > 0 then num / den else 0
    else (parseF64 fpsStr).getD 0
  else (parseF64 fpsStr).getD 0

/-- Both-streams heuristic on estimated frames = duration × fps
(needs ≥ 3 output lines: duration, then the frame rates). -/
def detect_both_stream_info (streamInfoProbe durProbe2 : Option (List Char)) :
    Option (List Char) :=
  match streamInfoProbe with
  | some out =>
    let ls := linesOf out
    if 3 ≤ ls.length then
      let duration := (parseF64 (trimChars (ls.getD 0 []))).getD 0
      let fps := parseFpsField (trimChars (ls.getD 1 []))
      if duration > 0 ∧ fps > 0 then
        let estimatedFrames : ℤ := ⌊duration * fps⌋
        if duration > 1 ∧ estimatedFrames > 5 then some ("video".data)
        else some ("audio".data)
      else detect_both_duration_fallback durProbe2
    else detect_both_duration_fallback durProbe2
  | none => detect_both_duration_fallback durProbe2

/-- Both-streams heuristic on the stream `nb_frames` field. -/
def detect_both_nb_frames (nbFramesProbe streamInfoProbe durProbe2 : Option (List Char)) :
    Option (List Char) :=
  match nbFramesProbe with
  | some out =>
    let t := trimChars out
    if t ≠ [] ∧ t ≠ "N/A".data then
      match parseI64 t with
      | some frameCount =>
        if frameCount > 1 then some ("video".data) else some ("audio".data)
      | none => detect_both_stream_info streamInfoProbe durProbe2
    else detect_both_stream_info streamInfoProbe durProbe2
  | none => detect_both_stream_info streamInfoProbe durProbe2

/-- Both-streams entry point: a format duration of at most 1 s short-circuits
to audio (embedded cover art); otherwise fall through to the frame-count and
fps heuristics. -/
def detect_both_streams
    (durProbe nbFramesProbe streamInfoProbe durProbe2 : Option (List Char)) :
    Option (List Char) :=
  match durProbe with
  | some out =>
    let duration := (parseF64 (trimChars out)).getD 0
    if duration ≤ 1 then some ("audio".data)
    else detect_both_nb_frames nbFramesProbe streamInfoProbe durProbe2
  | none => detect_both_nb_frames nbFramesProbe streamInfoProbe durProbe2

/-- Video-only fallback: a duration of at most 0.1 s means picture,
otherwise video; a failed probe means picture. -/
def detect_video_duration_fallback (durProbeV : Option (List Char)) : Option (List Char) :=
  match durProbeV with
  | some out =>
    let duration := (parseF64 (trimChars out)).getD 0
    if duration ≤ 1/10 then some ("picture".data) else some ("video".data)
  | none => some ("picture".data)

/-- Video-only heuristic on estimated frames. -/
def detect_video_stream_info (streamInfoProbeV durProbeV : Option (List Char)) :
    Option (List Char) :=
  match streamInfoProbeV with
  | some out =>
    let ls := linesOf out
    if 3 ≤ ls.length then
      let duration := (parseF64 (trimChars (ls.getD 0 []))).getD 0
      let fps := parseFpsField (trimChars (ls.getD 1 []))
      if duration > 0 ∧ fps > 0 then
        let estimatedFrames : ℤ := ⌊duration * fps⌋
        if estimatedFrames > 1 then some ("video".data) else some ("picture".data)
      else detect_video_duration_fallback durProbeV
    else detect_video_duration_fallback durProbeV
  | none => detect_video_duration_fallback durProbeV

/-- Video-only heuristic on the stream `nb_frames` field. -/
def detect_video_nb_frames (nbFramesProbeV streamInfoProbeV durProbeV : Option (List Char)) :
    Option (List Char) :=
  match nbFramesProbeV with
  | some out =>
    let t := trimChars out
    if t ≠ [] ∧ t ≠ "N/A".data then
      match parseI64 t with
      | some frameCount =>
        if frameCount > 1 then some ("video".data) else some ("picture".data)
      | none => detect_video_stream_info streamInfoProbeV durProbeV
    else detect_video_stream_info streamInfoProbeV durProbeV
  | none => detect_video_stream_info streamInfoProbeV durProbeV

/-- Embedding of `detect_file_type`.  `isPdfMagic` tells whether the first
four bytes read `%PDF`; the remaining parameters are the outcomes of the
`ffprobe` invocations in program order. -/
def detect_file_type (isPdfMagic : Bool)
    (videoProbe audioProbe : Option (List Char))
    (durProbe nbFramesProbe streamInfoProbe durProbe2 : Option (List Char))
    (nbFramesProbeV streamInfoProbeV durProbeV : Option (List Char)) :
    Option (List Char) :=
  if isPdfMagic then some ("document_pdf".data)
  else
    let hasVideo := match videoProbe with
      | some out => containsSub ("video".data) out
      | none => false
    let hasAudio := match audioProbe with
      | some out => containsSub ("audio".data) out
      | none => false
    if hasVideo = false ∧ hasAudio = false then none
    else if hasAudio ∧ hasVideo = false then some ("audio".data)
    else if hasVideo ∧ hasAudio then
      detect_both_streams durProbe nbFramesProbe streamInfoProbe durProbe2
    else
      detect_video_nb_frames nbFramesProbeV streamInfoProbeV durProbeV

/-! ## C3: the resolution ladder in `transcode_video`
(src/main.rs lines 3343-3402)

Only the pure ladder computation is embedded; the probe results
(`original_width`, `original_height`) and the configuration fields appear as
parameters.  `f32` arithmetic is idealized as exact rational arithmetic. -/

/-- One configured quality step (`QualityStep` in the source config). -/
structure QualityStep where
  label : List Char
  scale_divisor : ℕ
  deriving DecidableEq, Repr

/-- The per-step loop of `transcode_video`: push the current dimensions when
they preserve the aspect ratio within `0.01` and are not already present,
then derive the next dimensions by scaling, rounding, clamping to
`min_dimension` and snapping down to even. -/
def ladder_loop (aspect_ratio : ℚ) (min_dimension : ℕ) :
    List QualityStep → ℕ → ℕ → List (ℕ × ℕ × List Char) → List (ℕ × ℕ × List Char)
  | [], _, _, outputs => outputs
  | step :: rest, width, height, outputs =>
    let ratioOk := |(width : ℚ) / (height : ℚ) - aspect_ratio| ≤ 1/100
    let isDup := outputs.any (fun o => o.1 == width && o.2.1 == height)
    let outputs' :=
      if ratioOk ∧ isDup = false then outputs ++ [(width, height, step.label)] else outputs
    let new_width0 := roundToU32 ((width : ℚ) * (1 / (step.scale_divisor : ℚ)))
    let new_height0 := roundToU32 ((new_width0 : ℚ) / aspect_ratio)
    let new_width := max new_width0 min_dimension / 2 * 2
    let new_height := max new_height0 min_dimension / 2 * 2
    ladder_loop aspect_ratio min_dimension rest new_width new_height outputs'

/-- Embedding of the ladder computation in `transcode_video`: the number of
steps is the configured maximum, reduced by one below the 2K pixel
threshold; the loop then runs over that many configured quality steps. -/
def transcode_video_ladder (original_width original_height : ℕ)
    (min_dimension threshold_2k_pixels max_resolution_steps : ℕ)
    (quality_steps : List QualityStep) : List (ℕ × ℕ × List Char) :=
  let num_steps :=
    if threshold_2k_pixels ≤ original_width * original_height then max_resolution_steps
    else max_resolution_steps - 1
  let aspect_ratio : ℚ := (original_width : ℚ) / (original_height : ℚ)
  ladder_loop aspect_ratio min_dimension
    (quality_steps.take (min num_steps quality_steps.length))
    original_width original_height []


/-- Dimensions produced by the scale/clamp/snap pipeline of the ladder loop:
both even and at least the even-snapped minimum dimension. -/
def snapped_dims (min_dimension : ℕ) (e : ℕ × ℕ × List Char) : Prop :=
  e.1 % 2 = 0 ∧ e.2.1 % 2 = 0 ∧
    min_dimension / 2 * 2 ≤ e.1 ∧ min_dimension / 2 * 2 ≤ e.2.1

/-! ## C6 and C7: silence-based split points and chunk boundaries
(`compute_split_points` lines 1789-1829, chunk-boundary construction inside
`generate_whisper_vtt` lines 1963-1970) -/

/-- A detected silence interval (source struct `SilenceInterval`; the Rust
field `end` is named `stop` here because `end` is a Lean keyword). -/
structure SilenceInterval where
  start : ℚ
  stop : ℚ
  deriving DecidableEq, Repr

/-- Midpoint of a silence interval (source method `midpoint`). -/
def SilenceInterval.midpoint (s : SilenceInterval) : ℚ := (s.start + s.stop) / 2

/-- Model of `Iterator::min_by` over the candidate silences: keep the
earlier element on ties (Rust `min_by` returns the first minimum; the
`partial_cmp(..).unwrap_or(Equal)` fallback also keeps the accumulator). -/
def pick_best_silence (target : ℚ) :
    List SilenceInterval → Option SilenceInterval → Option SilenceInterval
  | [], best => best
  | iv :: rest, best =>
    match best with
    | none => pick_best_silence target rest (some iv)
    | some b =>
      if |iv.midpoint - target| < |b.midpoint - target| then
        pick_best_silence target rest (some iv)
      else pick_best_silence target rest (some b)

/-- The while loop of `compute_split_points`, with explicit fuel.  One fuel
unit is one loop iteration; the Rust loop has no fuel, and
`compute_split_points` below supplies enough fuel for every terminating run
of the original (the loop advances by at least 60 s per iteration under the
configuration constraints used in the theorems). -/
def compute_split_points_aux (silences : List SilenceInterval)
    (target_secs max_secs duration : ℚ) (fuel : ℕ) (current_pos : ℚ) : List ℚ :=
  if hfuel : fuel = 0 then []
  else if current_pos + target_secs < duration then
    let target := current_pos + target_secs
    let max_end := current_pos + max_secs
    let search_start := max (target - 60) (current_pos + 60)
    let search_end := min max_end duration
    let candidates := silences.filter
      (fun s => decide (search_start ≤ s.midpoint) && decide (s.midpoint ≤ search_end))
    let split_at :=
      match pick_best_silence target candidates none with
      | some s => s.midpoint
      | none => min max_end duration
    if duration - split_at < 30 then []
    else
      split_at ::
        compute_split_points_aux silences target_secs max_secs duration (fuel - 1) split_at
  else []
termination_by fuel
decreasing_by simp_wf; omega

/-- Fuel bound for `compute_split_points_aux` (ample for every run of the
original loop, which advances by at least 60 seconds per iteration). -/
def split_detection_fuel (duration : ℚ) : ℕ := (⌈duration⌉).toNat + 1

/-- Embedding of `compute_split_points`. -/
def compute_split_points (duration : ℚ) (silences : List SilenceInterval)
    (target_secs max_secs : ℚ) : List ℚ :=
  compute_split_points_aux silences target_secs max_secs duration
    (split_detection_fuel duration) 0

/-- The chunk-boundary construction inside `generate_whisper_vtt`
(lines 1963-1970): fold the split points into consecutive
`(start, end)` pairs, closing the last chunk at `duration`. -/
def build_chunk_boundaries_aux (duration : ℚ) : ℚ → List ℚ → List (ℚ × ℚ)
  | prev, [] => [(prev, duration)]
  | prev, sp :: rest => (prev, sp) :: build_chunk_boundaries_aux duration sp rest

/-- Chunk boundaries from split points (as in the source, `boundaries` is
built from `split_points` and `duration`, starting at `0`). -/
def build_chunk_boundaries (split_points : List ℚ) (duration : ℚ) : List (ℚ × ℚ) :=
  build_chunk_boundaries_aux duration 0 split_points

/-- The last element of `c :: l` (used to state facts about the position
reached by the split loop). -/
def last_position (c : ℚ) (l : List ℚ) : ℚ := l.foldl (fun _ x => x) c

/-! ## C4: `post_process_dash_manifest` (src/main.rs lines 3195-3309)

The manifest is its list of lines; an audio track is a
`(file_path, language, title)` triple as in the source. -/

/-- Resolved raw label of one audio track: title if present, else language,
else the literal `Track`. -/
def resolve_track_label (language title : List Char) : List Char :=
  if title ≠ [] then title
  else if language ≠ [] then language
  else "Track".data

/-- Raw labels of the audio-track list. -/
def raw_labels (audio_info : List (List Char × List Char × List Char)) :
    List (List Char) :=
  audio_info.map (fun t => resolve_track_label t.2.1 t.2.2)

/-- The two-pass duplicate disambiguation of the source: labels occurring
once are kept; of several equal labels the first is kept and the k-th
becomes `label (k)`.  The source's running `seen_count` map value at index
`i` equals the number of occurrences of the label among the first `i + 1`
raw labels, which is how it is expressed here. -/
def disambiguate_labels (raw : List (List Char)) : List (List Char) :=
  (List.range raw.length).map (fun i =>
    let l := raw.getD i []
    if 1 < raw.count l then
      let seen := (raw.take (i + 1)).count l
      if seen = 1 then l else l ++ (" (".data) ++ decStr seen ++ (")".data)
    else l)

/-- An audio `AdaptationSet` opening tag, as the source detects it. -/
def is_audio_adaptation_line (line : List Char) : Bool :=
  containsSub ("<AdaptationSet".data) line &&
    containsSub ("contentType=\"audio\"".data) line

/-- The `Role` element emitted for commentary tracks. -/
def role_commentary_element : List Char :=
  "<Role schemeIdUri=\"urn:mpeg:dash:role:2011\" value=\"commentary\"/>".data

/-- The `Role` element emitted for the first of multiple audio tracks. -/
def role_main_element : List Char :=
  "<Role schemeIdUri=\"urn:mpeg:dash:role:2011\" value=\"main\"/>".data

/-- The line loop of `post_process_dash_manifest`: after each audio
`AdaptationSet` opening tag (while tracks remain) insert a `<Label>` line
and possibly a `<Role>` line, indented two spaces past the tag. -/
def post_process_lines (audio_info : List (List Char × List Char × List Char))
    (labels : List (List Char)) : List (List Char) → ℕ → List (List Char)
  | [], _ => []
  | line :: rest, idx =>
    if is_audio_adaptation_line line ∧ idx < audio_info.length then
      let title := (audio_info.getD idx ([], [], [])).2.2
      let indent := line.takeWhile isRustWs
      let childIndent := indent ++ "  ".data
      let labelLine :=
        childIndent ++ ("<Label>".data) ++ labels.getD idx [] ++ ("</Label>".data)
      let titleLower := lowerChars title
      let roleLines :=
        if containsSub ("commentary".data) titleLower ||
            containsSub ("komentář".data) titleLower then
          [childIndent ++ role_commentary_element]
        else if 1 < audio_info.length ∧ idx = 0 then
          [childIndent ++ role_main_element]
        else []
      line :: labelLine :: (roleLines ++ post_process_lines audio_info labels rest (idx + 1))
    else line :: post_process_lines audio_info labels rest idx

/-- Embedding of `post_process_dash_manifest`: a single audio stream with no
title needs no post-processing (early return); otherwise insert labels and
roles after each audio `AdaptationSet` opening tag. -/
def post_process_dash_manifest (mpd_lines : List (List Char))
    (audio_info : List (List Char × List Char × List Char)) : List (List Char) :=
  if audio_info.length ≤ 1 ∧ audio_info.all (fun t => t.2.2.isEmpty) then mpd_lines
  else post_process_lines audio_info (disambiguate_labels (raw_labels audio_info)) mpd_lines 0

/-- Companion of `post_process_lines` collecting, in order, the labels the
loop inserts (one per audio `AdaptationSet` line while `idx` is in range). -/
def inserted_labels_aux (n : ℕ) (labels : List (List Char)) :
    List (List Char) → ℕ → List (List Char)
  | [], _ => []
  | line :: rest, idx =>
    if is_audio_adaptation_line line ∧ idx < n then
      labels.getD idx [] :: inserted_labels_aux n labels rest (idx + 1)
    else inserted_labels_aux n labels rest idx

/-- The labels `post_process_dash_manifest` inserts into the manifest. -/
def inserted_labels (mpd_lines : List (List Char))
    (audio_info : List (List Char × List Char × List Char)) : List (List Char) :=
  if audio_info.length ≤ 1 ∧ audio_info.all (fun t => t.2.2.isEmpty) then []
  else
    inserted_labels_aux audio_info.length
      (disambiguate_labels (raw_labels audio_info)) mpd_lines 0

/-- Number of audio `AdaptationSet` opening tags in a manifest. -/
def count_audio_adaptation_lines (mpd_lines : List (List Char)) : ℕ :=
  mpd_lines.countP is_audio_adaptation_line

/-! ## C9: subtitle translation
(`translate_text_via_llama` lines 2255-2299, `translate_subtitle_file`
lines 2301-2384, `strip_translation_preamble` lines 2209-2237 and the
list-marker stripper lines 2239-2253)

The LLM HTTP call is abstracted by its outcome per cue. -/

/-- A parsed VTT cue (source struct `VttCue`; the field `end` is named
`stop` here because `end` is a Lean keyword). -/
structure VttCue where
  start : List Char
  stop : List Char
  text : List Char
  deriving DecidableEq, Repr

/-- Outcome of one LLM completion request: the request failed to send, the
server answered non-2xx, the response JSON had no string `content` field, or
it had one with the given value. -/
inductive LlamaResponse where
  | requestFailed
  | httpErrorStatus
  | jsonNoContent
  | jsonContent (content : List Char)
  deriving DecidableEq, Repr

/-- Embedding of the source's list-marker stripper (lines 2239-2253; named
`strip_list_marker` here): drop a leading `1. ` / `1) ` / `- ` / `* `. -/
def strip_list_marker (text : List Char) : List Char :=
  let t := trimChars text
  match t with
  | c1 :: c2 :: c3 :: rest =>
    if c1.isDigit ∧ (c2 = '.' ∨ c2 = ')') ∧ c3 = ' ' then trimChars rest
    else if (c1 = '-' ∨ c1 = '*') ∧ c2 = ' ' then trimChars (c3 :: rest)
    else t
  | _ => t

/-- Embedding of `strip_translation_preamble`: when the first line ends with
a colon it is an introductory preamble; keep only the first option of the
remainder (stripping a list marker), or signal failure with the empty
string. -/
def strip_translation_preamble (text : List Char) : List Char :=
  let trimmed := trimChars text
  let firstNl := trimmed.findIdx? (fun c => c == '\n')
  let firstLine :=
    match firstNl with
    | some pos => trimmed.take pos
    | none => trimmed
  if (trimEndChars firstLine).getLast? = some ':' then
    match firstNl with
    | some pos =>
      let rest := trimChars (trimmed.drop pos)
      if rest ≠ [] then
        let withoutMarker := strip_list_marker rest
        let firstOption := trimChars (withoutMarker.takeWhile (fun c => c != '\n'))
        if firstOption ≠ [] then firstOption else []
      else []
    | none => []
  else trimmed

/-- Embedding of `translate_text_via_llama`: only a 2xx response whose JSON
carries a string `content` field yields a value, and only when the
preamble-stripped text is non-empty. -/
def translate_text_via_llama (response : LlamaResponse) : Option (List Char) :=
  match response with
  | LlamaResponse.jsonContent s =>
    let stripped := strip_translation_preamble s
    if stripped = [] then none else some stripped
  | _ => none

/-- The per-cue step of the translation loop in `translate_subtitle_file`:
use the translation when it is non-empty, otherwise keep the original cue
text; timestamps are always copied from the source cue. -/
def translate_cue_step (cue : VttCue) (response : LlamaResponse) : VttCue :=
  match translate_text_via_llama response with
  | some t =>
    if t ≠ [] then { start := cue.start, stop := cue.stop, text := t } else cue
  | none => cue

/-- The translation loop with its running cue index. -/
def translate_cues_aux (responseOf : ℕ → LlamaResponse) :
    ℕ → List VttCue → List VttCue
  | _, [] => []
  | i, cue :: rest =>
    translate_cue_step cue (responseOf i) :: translate_cues_aux responseOf (i + 1) rest

/-- Embedding of the cue-translation core of `translate_subtitle_file`:
the parsed source cues and the per-cue LLM outcomes produce the translated
cue list (the surrounding file I/O is not modelled). -/
def translate_subtitle_file (cues : List VttCue) (responseOf : ℕ → LlamaResponse) :
    List VttCue :=
  translate_cues_aux responseOf 0 cues

/-! ## C5: VTT timestamps
(`parse_vtt_timestamp` lines 1832-1839, `format_vtt_timestamp`
lines 1842-1848) -/

/-- Embedding of `parse_vtt_timestamp`: split on `:` into exactly three
parts and combine `hours*3600 + minutes*60 + seconds`. -/
def parse_vtt_timestamp (ts : List Char) : Option ℚ :=
  let parts := splitChar ':' ts
  if parts.length ≠ 3 then none
  else
    (parseF64 (trimChars (parts.getD 0 []))).bind fun hours =>
      (parseF64 (trimChars (parts.getD 1 []))).bind fun minutes =>
        (parseF64 (trimChars (parts.getD 2 []))).map fun seconds =>
          hours * 3600 + minutes * 60 + seconds

/-- Rust `{:06.3}` formatting of a nonnegative seconds value: round to three
decimals, then zero-pad the integer part to two digits (total width six). -/
def format_f64_width6_prec3 (q : ℚ) : List Char :=
  let n := (⌊q * 1000 + 1/2⌋).toNat
  padZeros 2 (n / 1000) ++ '.' :: padZeros 3 (n % 1000)

/-- Embedding of `format_vtt_timestamp`: clamp negatives to zero, then
format `{:02}:{:02}:{:06.3}` from floor-divisions and `f64` remainders. -/
def format_vtt_timestamp (total_secs : ℚ) : List Char :=
  let t := if total_secs < 0 then 0 else total_secs
  let hours := (⌊t / 3600⌋).toNat
  let minutes := (⌊rustFmod t 3600 / 60⌋).toNat
  let seconds := rustFmod t 60
  padZeros 2 hours ++ ':' :: (padZeros 2 minutes ++ ':' :: format_f64_width6_prec3 seconds)

/-- The canonical well-formed timestamp `HH:MM:SS.mmm` built from its four
numeric fields. -/
def mk_vtt_timestamp (H M S mmm : ℕ) : List Char :=
  padZeros 2 H ++ ':' :: (padZeros 2 M ++ ':' :: (padZeros 2 S ++ '.' :: padZeros 3 mmm))

/-! # Helper lemmas -/

/-- Every digit character produced by `digitToChar` is one of `0`-`9`. -/
theorem digitToChar_mem (d : ℕ) : digitToChar d ∈ ("0123456789".data) := by
  unfold digitToChar
  have h : d % 10 < 10 := Nat.mod_lt _ (by norm_num)
  set k := d % 10 with hk
  interval_cases k <;> decide

/-- `charVal` inverts `digitToChar` below ten. -/
theorem charVal_digitToChar {d : ℕ} (h : d < 10) : charVal (digitToChar d) = d := by
  unfold digitToChar
  have hmod : d % 10 = d := Nat.mod_eq_of_lt h
  rw [hmod]
  interval_cases d <;> decide

/-- Dropping while a predicate that never holds is the identity. -/
theorem dropWhile_eq_self_of_none {p : Char → Bool} {l : List Char}
    (h : ∀ c ∈ l, p c = false) : l.dropWhile p = l := by
  cases l with
  | nil => rfl
  | cons a l => simp [List.dropWhile_cons, h a (List.mem_cons_self a l)]

/-- `trimChars` is the identity on whitespace-free strings. -/
theorem trimChars_eq_self {l : List Char} (h : ∀ c ∈ l, isRustWs c = false) :
    trimChars l = l := by
  unfold trimChars
  rw [dropWhile_eq_self_of_none h,
      dropWhile_eq_self_of_none (by simpa using fun c hc => h c hc),
      List.reverse_reverse]

/-- Taking while a predicate that always holds is the identity. -/
theorem takeWhile_eq_self_of_all {p : Char → Bool} {l : List Char}
    (h : ∀ c ∈ l, p c = true) : l.takeWhile p = l := by
  induction l with
  | nil => rfl
  | cons a l ih =>
    simp [List.takeWhile_cons, h a (List.mem_cons_self a l),
      ih (fun c hc => h c (List.mem_cons_of_mem a hc))]

/-- Dropping while a predicate that always holds gives the empty list. -/
theorem dropWhile_eq_nil_of_all {p : Char → Bool} {l : List Char}
    (h : ∀ c ∈ l, p c = true) : l.dropWhile p = [] := by
  induction l with
  | nil => rfl
  | cons a l ih =>
    simp [List.dropWhile_cons, h a (List.mem_cons_self a l),
      ih (fun c hc => h c (List.mem_cons_of_mem a hc))]

/-- `takeWhile` stops exactly at the first failing element. -/
theorem takeWhile_append_of_all {p : Char → Bool} {l r : List Char} {c : Char}
    (hl : ∀ x ∈ l, p x = true) (hc : p c = false) :
    (l ++ c :: r).takeWhile p = l := by
  induction l with
  | nil => simp [List.takeWhile_cons, hc]
  | cons a l ih =>
    simp [List.takeWhile_cons, hl a (List.mem_cons_self a l),
      ih (fun x hx => hl x (List.mem_cons_of_mem a hx))]

/-- `dropWhile` drops exactly the leading all-true prefix. -/
theorem dropWhile_append_of_all {p : Char → Bool} {l r : List Char} {c : Char}
    (hl : ∀ x ∈ l, p x = true) (hc : p c = false) :
    (l ++ c :: r).dropWhile p = c :: r := by
  induction l with
  | nil => simp [List.dropWhile_cons, hc]
  | cons a l ih =>
    simp [List.dropWhile_cons, hl a (List.mem_cons_self a l),
      ih (fun x hx => hl x (List.mem_cons_of_mem a hx))]

/-- `parseF64` on a non-empty all-digit string yields its decimal value. -/
theorem parseF64_all_digits {l : List Char} (hne : l ≠ [])
    (h : ∀ c ∈ l, c.isDigit = true) :
    parseF64 l = some ((digitsVal l : ℕ) : ℚ) := by
  unfold parseF64
  rw [takeWhile_eq_self_of_all h, dropWhile_eq_nil_of_all h]
  simp [hne]


/-- Length preservation of the translation loop. -/
theorem translate_cues_aux_length (responseOf : ℕ → LlamaResponse) :
    ∀ (cues : List VttCue) (i : ℕ),
      (translate_cues_aux responseOf i cues).length = cues.length := by
  intro cues
  induction cues with
  | nil => intro i; rfl
  | cons cue rest ih =>
    intro i
    simp [translate_cues_aux, ih (i + 1)]

/-- Elementwise description of the translation loop. -/
theorem translate_cues_aux_get? (responseOf : ℕ → LlamaResponse) :
    ∀ (cues : List VttCue) (i k : ℕ),
      (translate_cues_aux responseOf i cues).get? k =
        (cues.get? k).map (fun c => translate_cue_step c (responseOf (i + k))) := by
  intro cues
  induction cues with
  | nil => intro i k; rfl
  | cons cue rest ih =>
    intro i k
    cases k with
    | zero => rfl
    | succ k =>
      have harith : i + 1 + k = i + (k + 1) := by omega
      simp only [translate_cues_aux, List.get?_cons_succ, ih (i + 1) k, harith]



/-- Unfolding equation for one iteration of the ladder loop. -/
theorem ladder_loop_cons (a : ℚ) (m : ℕ) (step : QualityStep) (rest : List QualityStep)
    (w h : ℕ) (outputs : List (ℕ × ℕ × List Char)) :
    ladder_loop a m (step :: rest) w h outputs =
      ladder_loop a m rest
        (max (roundToU32 ((w : ℚ) * (1 / (step.scale_divisor : ℚ)))) m / 2 * 2)
        (max (roundToU32
            (((roundToU32 ((w : ℚ) * (1 / (step.scale_divisor : ℚ)))) : ℚ) / a)) m / 2 * 2)
        (if (|(w : ℚ) / (h : ℚ) - a| ≤ 1/100) ∧
            (outputs.any (fun o => o.1 == w && o.2.1 == h)) = false
         then outputs ++ [(w, h, step.label)] else outputs) := by
  rw [ladder_loop]

/-- The dimensions produced by one scale/clamp/snap step are snapped. -/
theorem snapped_dims_step (m x y : ℕ) (lbl : List Char) :
    snapped_dims m (max x m / 2 * 2, max y m / 2 * 2, lbl) := by
  refine ⟨?_, ?_, ?_, ?_⟩
  · show max x m / 2 * 2 % 2 = 0; omega
  · show max y m / 2 * 2 % 2 = 0; omega
  · show m / 2 * 2 ≤ max x m / 2 * 2
    exact Nat.mul_le_mul_right 2 (Nat.div_le_div_right (le_max_right _ _))
  · show m / 2 * 2 ≤ max y m / 2 * 2
    exact Nat.mul_le_mul_right 2 (Nat.div_le_div_right (le_max_right _ _))

/-- Every entry the ladder loop ever pushes passes the aspect-ratio guard;
entries already present keep any property they had. -/
theorem ladder_loop_mem_aspect (a : ℚ) (m : ℕ) :
    ∀ (steps : List QualityStep) (w h : ℕ) (outputs : List (ℕ × ℕ × List Char)),
      (∀ e ∈ outputs, |(e.1 : ℚ) / (e.2.1 : ℚ) - a| ≤ 1/100) →
      ∀ e ∈ ladder_loop a m steps w h outputs,
        |(e.1 : ℚ) / (e.2.1 : ℚ) - a| ≤ 1/100 := by
  intro steps
  induction steps with
  | nil => intro w h outputs hout e he; rw [ladder_loop] at he; exact hout e he
  | cons step rest ih =>
    intro w h outputs hout e he
    rw [ladder_loop_cons] at he
    refine ih _ _ _ ?_ e he
    intro x hx
    split_ifs at hx with hguard
    · rcases List.mem_append.1 hx with hx' | hx'
      · exact hout x hx'
      · rcases List.mem_singleton.1 hx' with rfl
        exact hguard.1
    · exact hout x hx

/-- The ladder loop preserves the no-duplicate-dimensions invariant. -/
theorem ladder_loop_pair_nodup (a : ℚ) (m : ℕ) :
    ∀ (steps : List QualityStep) (w h : ℕ) (outputs : List (ℕ × ℕ × List Char)),
      (outputs.map (fun e => (e.1, e.2.1))).Nodup →
      ((ladder_loop a m steps w h outputs).map (fun e => (e.1, e.2.1))).Nodup := by
  intro steps
  induction steps with
  | nil => intro w h outputs hout; rw [ladder_loop]; exact hout
  | cons step rest ih =>
    intro w h outputs hout
    rw [ladder_loop_cons]
    refine ih _ _ _ ?_
    split_ifs with hguard
    · rw [List.map_append, List.nodup_append]
      refine ⟨hout, List.nodup_singleton _, ?_⟩
      intro p hp hq
      rcases List.mem_map.1 hp with ⟨o, ho, rfl⟩
      rcases List.mem_map.1 hq with ⟨y, hy, hfy⟩
      rcases List.mem_singleton.1 hy with rfl
      rw [Prod.mk.injEq] at hfy
      have hfalse := hguard.2
      rw [List.any_eq_false] at hfalse
      have hno := hfalse o ho
      simp only [Bool.and_eq_true, beq_iff_eq] at hno
      exact hno ⟨hfy.1.symm, hfy.2.symm⟩
    · exact hout

/-- Once the running dimensions are snapped, the ladder loop only appends
snapped entries. -/
theorem ladder_loop_snapped (a : ℚ) (m : ℕ) :
    ∀ (steps : List QualityStep) (w h : ℕ) (outputs : List (ℕ × ℕ × List Char)),
      snapped_dims m (w, h, []) →
      ∃ extra, ladder_loop a m steps w h outputs = outputs ++ extra ∧
        ∀ e ∈ extra, snapped_dims m e := by
  intro steps
  induction steps with
  | nil =>
    intro w h outputs hwh
    exact ⟨[], by rw [ladder_loop]; simp, by simp⟩
  | cons step rest ih =>
    intro w h outputs hwh
    rw [ladder_loop_cons]
    split_ifs with hguard
    · obtain ⟨extra, heq, hextra⟩ := ih _ _ (outputs ++ [(w, h, step.label)])
        (snapped_dims_step m _ _ [])
      refine ⟨(w, h, step.label) :: extra, by rw [heq]; simp, ?_⟩
      intro e he
      rcases List.mem_cons.1 he with rfl | he'
      · exact ⟨hwh.1, hwh.2.1, hwh.2.2.1, hwh.2.2.2⟩
      · exact hextra e he'
    · exact ih _ _ outputs (snapped_dims_step m _ _ [])

/-- Structure of a ladder started from the raw source dimensions: the head
(if any) is the source resolution, everything after it is snapped. -/
theorem ladder_loop_head_structure (a : ℚ) (m : ℕ) (steps : List QualityStep)
    (w h : ℕ) (ha : a = (w : ℚ) / (h : ℚ)) :
    (∀ e ∈ (ladder_loop a m steps w h []).take 1, e.1 = w ∧ e.2.1 = h) ∧
    (∀ e ∈ (ladder_loop a m steps w h []).drop 1, snapped_dims m e) := by
  cases steps with
  | nil => rw [ladder_loop]; exact ⟨by simp, by simp⟩
  | cons step rest =>
    rw [ladder_loop_cons,
      if_pos ⟨by rw [ha, sub_self, abs_zero]; norm_num, by simp⟩]
    obtain ⟨extra, heq, hextra⟩ := ladder_loop_snapped a m rest _ _
      ([] ++ [(w, h, step.label)]) (snapped_dims_step m _ _ [])
    rw [heq]
    constructor
    · intro e he
      simp only [List.nil_append, List.singleton_append, List.take_succ_cons,
        List.take_zero] at he
      rcases List.mem_singleton.1 he with rfl
      exact ⟨rfl, rfl⟩
    · intro e he
      simp only [List.nil_append, List.singleton_append, List.drop_succ_cons,
        List.drop_zero] at he
      exact hextra e he


/-- Closed unfolding equation for one iteration of the split-point loop. -/
theorem csp_aux_unfold (silences : List SilenceInterval) (T M d : ℚ) (fuel : ℕ) (cur : ℚ) :
    compute_split_points_aux silences T M d fuel cur =
      if fuel = 0 then []
      else if cur + T < d then
        let target := cur + T
        let max_end := cur + M
        let search_start := max (target - 60) (cur + 60)
        let search_end := min max_end d
        let candidates := silences.filter
          (fun s => decide (search_start ≤ s.midpoint) && decide (s.midpoint ≤ search_end))
        let split_at :=
          match pick_best_silence target candidates none with
          | some s => s.midpoint
          | none => min max_end d
        if d - split_at < 30 then []
        else split_at :: compute_split_points_aux silences T M d (fuel - 1) split_at
      else [] := by
  rw [compute_split_points_aux]
  split_ifs <;> rfl

/-- `min_by` returns an element of the list, or its initial accumulator. -/
theorem pick_best_silence_mem (t : ℚ) :
    ∀ (l : List SilenceInterval) (acc : Option SilenceInterval) (x : SilenceInterval),
      pick_best_silence t l acc = some x → x ∈ l ∨ acc = some x := by
  intro l
  induction l with
  | nil => intro acc x h; exact Or.inr h
  | cons iv rest ih =>
    intro acc x h
    cases acc with
    | none =>
      rw [pick_best_silence] at h
      rcases ih (some iv) x h with h' | h'
      · exact Or.inl (List.mem_cons_of_mem iv h')
      · rw [Option.some.injEq] at h'
        exact Or.inl (h' ▸ List.mem_cons_self iv rest)
    | some b =>
      rw [pick_best_silence] at h
      split_ifs at h with hlt
      · rcases ih (some iv) x h with h' | h'
        · exact Or.inl (List.mem_cons_of_mem iv h')
        · rw [Option.some.injEq] at h'
          exact Or.inl (h' ▸ List.mem_cons_self iv rest)
      · rcases ih (some b) x h with h' | h'
        · exact Or.inl (List.mem_cons_of_mem iv h')
        · exact Or.inr h'

/-- `min_by` yields `none` only from the empty list with an empty
accumulator. -/
theorem pick_best_silence_none (t : ℚ) :
    ∀ (l : List SilenceInterval) (acc : Option SilenceInterval),
      pick_best_silence t l acc = none → l = [] ∧ acc = none := by
  intro l
  induction l with
  | nil => intro acc h; exact ⟨rfl, h⟩
  | cons iv rest ih =>
    intro acc h
    exfalso
    cases acc with
    | none =>
      rw [pick_best_silence] at h
      exact Option.some_ne_none iv (ih (some iv) h).2
    | some b =>
      rw [pick_best_silence] at h
      split_ifs at h with hlt
      · exact Option.some_ne_none iv (ih (some iv) h).2
      · exact Option.some_ne_none b (ih (some b) h).2

/-- Every split produced by the loop is either the midpoint of a silence
whose midpoint lies in the code's search window for the position `c` at
which it was chosen, or, when no silence midpoint lies in that window, the
hard cap `min (c + M) d`. -/
theorem compute_split_points_aux_spec (silences : List SilenceInterval) (T M d : ℚ) :
    ∀ (fuel : ℕ) (cur : ℚ),
      ∀ s ∈ compute_split_points_aux silences T M d fuel cur,
        ∃ c : ℚ,
          (∃ iv ∈ silences, iv.midpoint = s ∧
            max (c + T - 60) (c + 60) ≤ iv.midpoint ∧ iv.midpoint ≤ min (c + M) d) ∨
          (s = min (c + M) d ∧
            ∀ iv ∈ silences,
              ¬(max (c + T - 60) (c + 60) ≤ iv.midpoint ∧
                iv.midpoint ≤ min (c + M) d)) := by
  intro fuel
  induction fuel with
  | zero =>
    intro cur s hs
    rw [csp_aux_unfold, if_pos rfl] at hs
    exact absurd hs (List.not_mem_nil s)
  | succ n ih =>
    intro cur s hs
    rw [csp_aux_unfold, if_neg (Nat.succ_ne_zero n)] at hs
    by_cases hloop : cur + T < d
    · rw [if_pos hloop] at hs
      dsimp only at hs
      cases hpick : pick_best_silence (cur + T)
          (silences.filter (fun iv =>
            decide (max (cur + T - 60) (cur + 60) ≤ iv.midpoint) &&
              decide (iv.midpoint ≤ min (cur + M) d))) none with
      | some iv0 =>
        rw [hpick] at hs
        dsimp only at hs
        split_ifs at hs with hbreak
        · exact absurd hs (List.not_mem_nil s)
        · rcases List.mem_cons.1 hs with rfl | hs'
          · refine ⟨cur, Or.inl ?_⟩
            rcases pick_best_silence_mem _ _ _ _ hpick with hmem | habs
            · rcases List.mem_filter.1 hmem with ⟨hin, hcond⟩
              simp only [Bool.and_eq_true, decide_eq_true_eq] at hcond
              exact ⟨iv0, hin, rfl, hcond.1, hcond.2⟩
            · exact absurd habs (by simp)
          · simpa using ih iv0.midpoint s (by simpa using hs')
      | none =>
        rw [hpick] at hs
        dsimp only at hs
        split_ifs at hs with hbreak
        · exact absurd hs (List.not_mem_nil s)
        · rcases List.mem_cons.1 hs with rfl | hs'
          · refine ⟨cur, Or.inr ⟨rfl, ?_⟩⟩
            have hempty := (pick_best_silence_none _ _ _ hpick).1
            rw [List.filter_eq_nil_iff] at hempty
            intro iv hin hcond
            have := hempty iv hin
            simp only [Bool.and_eq_true, decide_eq_true_eq, not_and] at this
            exact this hcond.1 hcond.2
          · simpa using ih (min (cur + M) d) s (by simpa using hs')
    · rw [if_neg hloop] at hs
      exact absurd hs (List.not_mem_nil s)

/-- Consecutive-position bound: every split is at most `M` past the position
from which it was chosen. -/
theorem compute_split_points_aux_chain (silences : List SilenceInterval) (T M d : ℚ) :
    ∀ (fuel : ℕ) (cur : ℚ),
      List.Chain (fun a b => b ≤ a + M) cur
        (compute_split_points_aux silences T M d fuel cur) := by
  intro fuel
  induction fuel with
  | zero => intro cur; rw [csp_aux_unfold, if_pos rfl]; exact List.Chain.nil
  | succ n ih =>
    intro cur
    rw [csp_aux_unfold, if_neg (Nat.succ_ne_zero n)]
    by_cases hloop : cur + T < d
    · rw [if_pos hloop]
      dsimp only
      cases hpick : pick_best_silence (cur + T)
          (silences.filter (fun iv =>
            decide (max (cur + T - 60) (cur + 60) ≤ iv.midpoint) &&
              decide (iv.midpoint ≤ min (cur + M) d))) none with
      | some iv0 =>
        dsimp only
        split_ifs with hbreak
        · exact List.Chain.nil
        · rw [List.chain_cons]
          constructor
          · rcases pick_best_silence_mem _ _ _ _ hpick with hmem | habs
            · rcases List.mem_filter.1 hmem with ⟨_, hcond⟩
              simp only [Bool.and_eq_true, decide_eq_true_eq] at hcond
              exact le_trans hcond.2 (min_le_left _ _)
            · exact absurd habs (by simp)
          · simpa using ih iv0.midpoint
      | none =>
        dsimp only
        split_ifs with hbreak
        · exact List.Chain.nil
        · rw [List.chain_cons]
          exact ⟨min_le_left _ _, by simpa using ih (min (cur + M) d)⟩
    · rw [if_neg hloop]; exact List.Chain.nil

/-- Tail bound: under the configuration constraints `0 < T ≤ M`, `60 ≤ M`,
with fuel covering the duration, the loop ends within `M + 30` seconds of
the duration. -/
theorem compute_split_points_aux_last (silences : List SilenceInterval) (T M d : ℚ)
    (hT : 0 < T) (hTM : T ≤ M) (hM60 : 60 ≤ M) :
    ∀ (fuel : ℕ) (cur : ℚ), d - cur ≤ 60 * (fuel : ℚ) + T →
      d - last_position cur (compute_split_points_aux silences T M d fuel cur) <
        M + 30 := by
  intro fuel
  induction fuel with
  | zero =>
    intro cur hcur
    rw [csp_aux_unfold, if_pos rfl]
    show d - cur < M + 30
    push_cast at hcur
    linarith
  | succ n ih =>
    intro cur hcur
    rw [csp_aux_unfold, if_neg (Nat.succ_ne_zero n)]
    by_cases hloop : cur + T < d
    · rw [if_pos hloop]
      dsimp only
      cases hpick : pick_best_silence (cur + T)
          (silences.filter (fun iv =>
            decide (max (cur + T - 60) (cur + 60) ≤ iv.midpoint) &&
              decide (iv.midpoint ≤ min (cur + M) d))) none with
      | some iv0 =>
        dsimp only
        have hw : max (cur + T - 60) (cur + 60) ≤ iv0.midpoint ∧
            iv0.midpoint ≤ min (cur + M) d := by
          rcases pick_best_silence_mem _ _ _ _ hpick with hmem | habs
          · rcases List.mem_filter.1 hmem with ⟨_, hcond⟩
            simp only [Bool.and_eq_true, decide_eq_true_eq] at hcond
            exact hcond
          · exact absurd habs (by simp)
        have hub : iv0.midpoint ≤ cur + M := le_trans hw.2 (min_le_left _ _)
        have hlb : cur + 60 ≤ iv0.midpoint := le_trans (le_max_right _ _) hw.1
        split_ifs with hbreak
        · show d - cur < M + 30
          linarith
        · show d - last_position iv0.midpoint
              (compute_split_points_aux silences T M d (n + 1 - 1) iv0.midpoint) < M + 30
          rw [Nat.add_sub_cancel]
          refine ih iv0.midpoint ?_
          push_cast
          push_cast at hcur
          linarith
      | none =>
        dsimp only
        split_ifs with hbreak
        · show d - cur < M + 30
          have : min (cur + M) d ≤ cur + M := min_le_left _ _
          linarith
        · show d - last_position (min (cur + M) d)
              (compute_split_points_aux silences T M d (n + 1 - 1) (min (cur + M) d)) <
            M + 30
          rw [Nat.add_sub_cancel]
          have hmin : min (cur + M) d = cur + M := by
            rcases min_cases (cur + M) d with ⟨heq, _⟩ | ⟨heq, _⟩
            · exact heq
            · exfalso
              rw [heq] at hbreak
              simp at hbreak
          rw [hmin]
          refine ih (cur + M) ?_
          push_cast
          push_cast at hcur
          linarith
    · rw [if_neg hloop]
      show d - cur < M + 30
      have := not_lt.mp hloop
      linarith

/-- The default fuel covers the whole duration. -/
theorem split_detection_fuel_sufficient (d T : ℚ) (hT : 0 < T) :
    d - 0 ≤ 60 * ((split_detection_fuel d : ℕ) : ℚ) + T := by
  unfold split_detection_fuel
  rcases le_or_lt d 0 with hd | hd
  · have h0 : (0 : ℚ) ≤ ((((⌈d⌉).toNat + 1 : ℕ) : ℚ)) := Nat.cast_nonneg _
    linarith
  · have h1 : d ≤ ((⌈d⌉ : ℤ) : ℚ) := Int.le_ceil d
    have h2 : ((⌈d⌉ : ℤ) : ℚ) = (((⌈d⌉).toNat : ℕ) : ℚ) := by
      rw [← Int.toNat_of_nonneg (Int.ceil_nonneg hd.le)]
      push_cast
      rw [Int.toNat_of_nonneg (Int.ceil_nonneg hd.le)]
    have h3 : (0 : ℚ) ≤ (((⌈d⌉).toNat : ℕ) : ℚ) := Nat.cast_nonneg _
    push_cast
    push_cast at h2
    linarith

/-- Chunk boundaries are never empty. -/
theorem build_chunk_boundaries_aux_ne_nil (d : ℚ) (prev : ℚ) (splits : List ℚ) :
    build_chunk_boundaries_aux d prev splits ≠ [] := by
  cases splits <;> exact List.cons_ne_nil _ _

/-- The first chunk starts at the starting position. -/
theorem build_chunk_boundaries_aux_head (d : ℚ) (prev : ℚ) (splits : List ℚ) :
    (build_chunk_boundaries_aux d prev splits).head?.map Prod.fst = some prev := by
  cases splits <;> rfl

/-- The last chunk is `(last position, duration)`. -/
theorem build_chunk_boundaries_aux_getLast (d : ℚ) :
    ∀ (splits : List ℚ) (prev : ℚ),
      (build_chunk_boundaries_aux d prev splits).getLast? =
        some (last_position prev splits, d) := by
  intro splits
  induction splits with
  | nil => intro prev; rfl
  | cons sp rest ih =>
    intro prev
    show ((prev, sp) :: build_chunk_boundaries_aux d sp rest).getLast? = _
    cases hrest : build_chunk_boundaries_aux d sp rest with
    | nil => exact absurd hrest (build_chunk_boundaries_aux_ne_nil d sp rest)
    | cons x xs =>
      rw [List.getLast?_cons_cons, ← hrest, ih sp]
      rfl

/-- Adjacent chunks share their boundary. -/
theorem build_chunk_boundaries_aux_chain (d : ℚ) :
    ∀ (splits : List ℚ) (prev : ℚ),
      List.Chain' (fun a b => a.2 = b.1) (build_chunk_boundaries_aux d prev splits) := by
  intro splits
  induction splits with
  | nil => intro prev; exact List.chain'_singleton _
  | cons sp rest ih =>
    intro prev
    show List.Chain' _ ((prev, sp) :: build_chunk_boundaries_aux d sp rest)
    rw [List.chain'_cons']
    refine ⟨?_, ih sp⟩
    intro y hy
    have hh := build_chunk_boundaries_aux_head d sp rest
    cases hhead : (build_chunk_boundaries_aux d sp rest).head? with
    | none => rw [hhead] at hy; exact absurd hy (Option.not_mem_none y)
    | some z =>
      rw [hhead] at hy hh
      have hz : z.1 = sp := by simpa using hh
      have hyz : y = z := by
        have := hy
        simp only [Option.mem_def, Option.some.injEq] at this
        exact this.symm
      show (prev, sp).2 = y.1
      rw [hyz, hz]

/-- Every non-final chunk spans at most `M`, given that each split is at
most `M` past its predecessor. -/
theorem build_chunk_boundaries_aux_dropLast (d M : ℚ) :
    ∀ (splits : List ℚ) (prev : ℚ),
      List.Chain (fun a b => b ≤ a + M) prev splits →
      ∀ p ∈ (build_chunk_boundaries_aux d prev splits).dropLast, p.2 - p.1 ≤ M := by
  intro splits
  induction splits with
  | nil => intro prev _ p hp; simp [build_chunk_boundaries_aux] at hp
  | cons sp rest ih =>
    intro prev hchain p hp
    rw [List.chain_cons] at hchain
    have hne := build_chunk_boundaries_aux_ne_nil d sp rest
    rw [show build_chunk_boundaries_aux d prev (sp :: rest) =
        (prev, sp) :: build_chunk_boundaries_aux d sp rest from rfl,
      List.dropLast_cons_of_ne_nil hne] at hp
    rcases List.mem_cons.1 hp with rfl | hp'
    · show sp - prev ≤ M
      linarith [hchain.1]
    · exact ih sp hchain.2 p hp'


/-- Folding decimal digit characters over an accumulator. -/
theorem foldl_digits_core :
    ∀ (ds : List ℕ), (∀ d ∈ ds, d < 10) → ∀ (a : ℕ),
      List.foldl (fun acc c => acc * 10 + charVal c) a ((ds.reverse).map digitToChar) =
        a * 10 ^ ds.length + Nat.ofDigits 10 ds := by
  intro ds
  induction ds with
  | nil => intro _ a; simp [Nat.ofDigits_nil]
  | cons d tl ih =>
    intro hlt a
    rw [List.reverse_cons, List.map_append, List.foldl_append,
      ih (fun x hx => hlt x (List.mem_cons_of_mem d hx)) a]
    simp only [List.map_cons, List.map_nil, List.foldl_cons, List.foldl_nil,
      Nat.ofDigits_cons, List.length_cons]
    rw [charVal_digitToChar (hlt d (List.mem_cons_self d tl))]
    ring

/-- `digitsVal` inverts `decStr`. -/
theorem digitsVal_decStr (n : ℕ) : digitsVal (decStr n) = n := by
  by_cases h : n = 0
  · subst h; decide
  · rw [decStr, if_neg h]
    unfold digitsVal
    rw [foldl_digits_core (Nat.digits 10 n)
      (fun d hd => Nat.digits_lt_base (by norm_num) hd) 0]
    simp [Nat.ofDigits_digits]

/-- Decimal rendering is injective. -/
theorem decStr_inj {m n : ℕ} (h : decStr m = decStr n) : m = n := by
  rw [← digitsVal_decStr m, ← digitsVal_decStr n, h]

/-- Length of the disambiguated label list. -/
theorem disambiguate_labels_length (raw : List (List Char)) :
    (disambiguate_labels raw).length = raw.length := by
  simp [disambiguate_labels]

/-- Pointwise description of the disambiguated labels. -/
theorem disambiguate_labels_getD (raw : List (List Char)) (i : ℕ) (hi : i < raw.length) :
    (disambiguate_labels raw).getD i [] =
      (if 1 < raw.count (raw.getD i []) then
        (if (raw.take (i + 1)).count (raw.getD i []) = 1 then raw.getD i []
         else raw.getD i [] ++ (" (".data) ++
           decStr ((raw.take (i + 1)).count (raw.getD i [])) ++ (")".data))
       else raw.getD i []) := by
  unfold disambiguate_labels
  rw [List.getD_eq_getElem _ _ (by simpa using hi), List.getElem_map,
    List.getElem_range i]

/-- Counting a shared label along the prefixes up to two of its positions. -/
theorem count_take_strict (raw : List (List Char)) (L : List Char) (i j : ℕ)
    (hij : i < j) (hj : j < raw.length)
    (hiL : raw.getD i [] = L) (hjL : raw.getD j [] = L) :
    0 < (raw.take (i + 1)).count L ∧
    (raw.take (i + 1)).count L < (raw.take (j + 1)).count L ∧
    (raw.take (j + 1)).count L ≤ raw.count L := by
  have hi : i < raw.length := lt_trans hij hj
  rw [List.getD_eq_getElem raw [] hi] at hiL
  rw [List.getD_eq_getElem raw [] hj] at hjL
  have hlen_tj : (raw.take (j + 1)).length = j + 1 := by
    rw [List.length_take]; omega
  refine ⟨?_, ?_, (List.take_sublist (j + 1) raw).count_le L⟩
  · refine List.count_pos_iff.2 ?_
    have hb : i < (raw.take (i + 1)).length := by rw [List.length_take]; omega
    have : (raw.take (i + 1))[i] = raw[i] := List.getElem_take raw
    rw [← hiL, ← this]
    exact List.getElem_mem hb
  · have hsplit :
        (raw.take (i + 1)) ++ ((raw.take (j + 1)).drop (i + 1)) = raw.take (j + 1) := by
      have h1 : (raw.take (j + 1)).take (i + 1) = raw.take (i + 1) := by
        rw [List.take_take]; congr 1; omega
      rw [← h1]
      exact List.take_append_drop (i + 1) (raw.take (j + 1))
    have hcnt : (raw.take (i + 1)).count L + ((raw.take (j + 1)).drop (i + 1)).count L =
        (raw.take (j + 1)).count L := by
      have := congrArg (List.count L) hsplit
      rwa [List.count_append] at this
    have hmem : L ∈ (raw.take (j + 1)).drop (i + 1) := by
      have hblen : j - (i + 1) < ((raw.take (j + 1)).drop (i + 1)).length := by
        rw [List.length_drop, hlen_tj]; omega
      have hb2 : (i + 1) + (j - (i + 1)) < (raw.take (j + 1)).length := by
        rw [hlen_tj]; omega
      have e1 : ((raw.take (j + 1)).drop (i + 1))[j - (i + 1)] =
          (raw.take (j + 1))[(i + 1) + (j - (i + 1))] :=
        List.getElem_drop (raw.take (j + 1))
      have hb3 : (i + 1) + (j - (i + 1)) < raw.length := by omega
      have e2 : (raw.take (j + 1))[(i + 1) + (j - (i + 1))] =
          raw[(i + 1) + (j - (i + 1))] := List.getElem_take raw
      have harith : (i + 1) + (j - (i + 1)) = j := by omega
      rw [← hjL]
      have e3 : raw[(i + 1) + (j - (i + 1))] = raw[j] := by
        congr 1
      rw [← e3, ← e2, ← e1]
      exact List.getElem_mem hblen
    have : 0 < ((raw.take (j + 1)).drop (i + 1)).count L := List.count_pos_iff.2 hmem
    omega

/-- Labels assigned to two tracks with the same raw label are distinct: the
first keeps the bare label and later ones receive strictly increasing
occurrence suffixes, and decimal rendering is injective. -/
theorem disambiguate_labels_group_distinct (raw : List (List Char)) (i j : ℕ)
    (hij : i < j) (hj : j < raw.length) (heq : raw.getD i [] = raw.getD j []) :
    (disambiguate_labels raw).getD i [] ≠ (disambiguate_labels raw).getD j [] := by
  obtain ⟨h1, h2, h3⟩ := count_take_strict raw (raw.getD j []) i j hij hj heq rfl
  have hcount : 1 < raw.count (raw.getD j []) := by omega
  rw [disambiguate_labels_getD raw i (lt_trans hij hj), disambiguate_labels_getD raw j hj,
    heq, if_pos hcount, if_pos hcount]
  by_cases hsi : (raw.take (i + 1)).count (raw.getD j []) = 1
  · rw [if_pos hsi, if_neg (by omega)]
    intro habs
    have hlen := congrArg List.length habs
    simp only [List.length_append] at hlen
    have hl2 : ([' ', '('] : List Char).length = 2 := rfl
    have hl1 : ([')'] : List Char).length = 1 := rfl
    have hl2' : (" (".data).length = 2 := rfl
    have hl1' : (")".data).length = 1 := rfl
    omega
  · rw [if_neg hsi, if_neg (by omega)]
    intro habs
    have h4 := List.append_cancel_right habs
    have h5 := List.append_cancel_left h4
    have h6 := decStr_inj h5
    omega


/-- When the manifest has exactly the expected number of audio tags past the
current index, the loop inserts exactly the remaining labels, in order. -/
theorem inserted_labels_aux_all :
    ∀ (mpd_lines : List (List Char)) (labels : List (List Char)) (n idx : ℕ),
      labels.length = n → idx ≤ n →
      mpd_lines.countP is_audio_adaptation_line = n - idx →
      inserted_labels_aux n labels mpd_lines idx = labels.drop idx := by
  intro mpd_lines
  induction mpd_lines with
  | nil =>
    intro labels n idx hlen hle hcount
    simp only [List.countP_nil] at hcount
    have hidx : idx = n := by omega
    rw [inserted_labels_aux, hidx, ← hlen, List.drop_length]
  | cons line rest ih =>
    intro labels n idx hlen hle hcount
    rw [List.countP_cons] at hcount
    by_cases haud : is_audio_adaptation_line line = true
    · have hc2 : rest.countP is_audio_adaptation_line + 1 = n - idx := by
        simpa [haud] using hcount
      have hidx : idx < n := by omega
      rw [inserted_labels_aux, if_pos ⟨haud, hidx⟩,
        ih labels n (idx + 1) hlen (by omega) (by omega),
        List.getD_eq_getElem labels [] (show idx < labels.length by omega)]
      exact (List.drop_eq_getElem_cons (show idx < labels.length by omega)).symm
    · have hc2 : rest.countP is_audio_adaptation_line = n - idx := by
        simpa [haud] using hcount
      rw [inserted_labels_aux, if_neg (fun h => haud h.1)]
      exact ih labels n idx hlen hle hc2


/-- The ten digit characters are digits and are none of the delimiter or
whitespace characters the timestamp grammar uses. -/
theorem digit_char_facts :
    ∀ c ∈ ("0123456789".data),
      c.isDigit = true ∧ c ≠ ':' ∧ isRustWs c = false ∧ c ≠ '.' ∧ c ≠ '\n' := by
  decide

/-- `decStr` produces only digit characters. -/
theorem decStr_chars (n : ℕ) : ∀ c ∈ decStr n, c ∈ ("0123456789".data) := by
  intro c hc
  rw [decStr] at hc
  split_ifs at hc with h0
  · rcases List.mem_singleton.1 hc with rfl
    decide
  · rcases List.mem_map.1 hc with ⟨d, _, rfl⟩
    exact digitToChar_mem d

/-- `padZeros` produces only digit characters. -/
theorem padZeros_chars (w n : ℕ) : ∀ c ∈ padZeros w n, c ∈ ("0123456789".data) := by
  intro c hc
  rcases List.mem_append.1 hc with hc' | hc'
  · rcases List.eq_of_mem_replicate hc' with rfl
    decide
  · exact decStr_chars n c hc'

/-- `decStr` is never empty. -/
theorem decStr_ne_nil (n : ℕ) : decStr n ≠ [] := by
  rw [decStr]
  split_ifs with h0
  · exact List.cons_ne_nil _ _
  · simp [Nat.digits_ne_nil_iff_ne_zero.2 h0]

/-- `padZeros` is never empty. -/
theorem padZeros_ne_nil (w n : ℕ) : padZeros w n ≠ [] := by
  unfold padZeros
  intro h
  rcases List.append_eq_nil.1 h with ⟨_, h2⟩
  exact decStr_ne_nil n h2

/-- Length bound for `decStr` under a power-of-ten bound. -/
theorem decStr_length_le {n k : ℕ} (hk : 1 ≤ k) (h : n < 10 ^ k) :
    (decStr n).length ≤ k := by
  by_cases h0 : n = 0
  · subst h0; simpa [decStr] using hk
  · rw [decStr, if_neg h0]
    simp only [List.length_map, List.length_reverse]
    by_contra hgt
    push_neg at hgt
    have h1 : 10 ^ (Nat.digits 10 n).length ≤ 10 * n :=
      Nat.base_pow_length_digits_le 10 n (by norm_num) h0
    have h2 : 10 ^ (k + 1) ≤ 10 ^ (Nat.digits 10 n).length :=
      Nat.pow_le_pow_right (by norm_num) (by omega)
    have h3 : 10 ^ (k + 1) = 10 * 10 ^ k := by ring
    omega

/-- Exact length of `padZeros` under a power-of-ten bound. -/
theorem padZeros_length_eq {n k : ℕ} (hk : 1 ≤ k) (h : n < 10 ^ k) :
    (padZeros k n).length = k := by
  have := decStr_length_le hk h
  simp only [padZeros, List.length_append, List.length_replicate]
  omega

/-- Leading zeros contribute nothing to the value. -/
theorem foldl_zeros (k : ℕ) :
    List.foldl (fun a c => a * 10 + charVal c) 0 (List.replicate k '0') = 0 := by
  induction k with
  | zero => rfl
  | succ k ih => simpa [List.replicate_succ, charVal] using ih

/-- `digitsVal` inverts `padZeros`. -/
theorem digitsVal_padZeros (w n : ℕ) : digitsVal (padZeros w n) = n := by
  unfold digitsVal padZeros
  rw [List.foldl_append, foldl_zeros]
  exact digitsVal_decStr n

/-- `splitChar` never returns the empty list. -/
theorem splitChar_ne_nil (sep : Char) (l : List Char) : splitChar sep l ≠ [] := by
  cases l with
  | nil => exact List.cons_ne_nil _ _
  | cons c rest =>
    rw [splitChar]
    split_ifs
    · exact List.cons_ne_nil _ _
    · cases h : splitChar sep rest with
      | nil => exact List.cons_ne_nil _ _
      | cons p ps => exact List.cons_ne_nil _ _

/-- Splitting a separator-free string yields that string alone. -/
theorem splitChar_sep_free (sep : Char) :
    ∀ (l : List Char), (∀ c ∈ l, c ≠ sep) → splitChar sep l = [l] := by
  intro l
  induction l with
  | nil => intro _; rfl
  | cons c rest ih =>
    intro h
    rw [splitChar, if_neg (by simpa using h c (List.mem_cons_self c rest)),
      ih (fun x hx => h x (List.mem_cons_of_mem c hx))]

/-- Splitting off the first separator-free piece. -/
theorem splitChar_append (sep : Char) :
    ∀ (xs ys : List Char), (∀ c ∈ xs, c ≠ sep) →
      splitChar sep (xs ++ sep :: ys) = xs :: splitChar sep ys := by
  intro xs
  induction xs with
  | nil => intro ys _; simp [splitChar]
  | cons c rest ih =>
    intro ys h
    rw [List.cons_append, splitChar,
      if_neg (by simpa using h c (List.mem_cons_self c rest)),
      ih ys (fun x hx => h x (List.mem_cons_of_mem c hx))]

/-- `parseF64` on a digit string with a dot-separated fraction. -/
theorem parseF64_fraction (ip frac : List Char)
    (hip : ∀ c ∈ ip, c.isDigit = true) (hfrac : ∀ c ∈ frac, c.isDigit = true)
    (hne : ip ≠ []) :
    parseF64 (ip ++ '.' :: frac) =
      some ((digitsVal ip : ℚ) + (digitsVal frac : ℚ) / (10 : ℚ) ^ frac.length) := by
  unfold parseF64
  rw [takeWhile_append_of_all hip (by decide), dropWhile_append_of_all hip (by decide)]
  simp only [List.all_eq_true]
  rw [if_pos ⟨hfrac, Or.inl hne⟩]


/-- Floor of a quotient, given an explicit decomposition `q = D k + r`. -/
theorem floor_div_of_bounds (q D : ℚ) (k : ℤ) (r : ℚ) (hD : 0 < D)
    (hq : q = D * k + r) (hr0 : 0 ≤ r) (hrD : r < D) : ⌊q / D⌋ = k := by
  rw [Int.floor_eq_iff]
  constructor
  · rw [le_div_iff hD]
    nlinarith
  · rw [div_lt_iff hD]
    push_cast
    nlinarith

/-- The `f64` remainder, given an explicit decomposition `q = D k + r`. -/
theorem rustFmod_of_bounds (q D : ℚ) (k : ℤ) (r : ℚ) (hD : 0 < D)
    (hq : q = D * k + r) (hr0 : 0 ≤ r) (hrD : r < D) : rustFmod q D = r := by
  unfold rustFmod
  rw [floor_div_of_bounds q D k r hD hq hr0 hrD]
  linarith

/-! # Claim theorems -/

/-- Claim C10: when the audio-duration probe fails, exits non-zero, or its
output does not parse as a number, `probe_audio_duration` returns the fixed
default `3600.0` seconds (not zero, not an error). -/
theorem probe_audio_duration_default :
    probe_audio_duration none = 3600 ∧
    (∀ out : List Char,
      ((linesOf out).head?).bind (fun l => parseF64 (trimChars l)) = none →
      probe_audio_duration (some out) = 3600) ∧
    (3600 : ℚ) ≠ 0 := by
  refine ⟨rfl, ?_, by norm_num⟩
  intro out h
  simp [probe_audio_duration, h]

/-- Witness for C10 at the concrete unparseable probe output `"N/A"`. -/
theorem probe_audio_duration_default_witness :
    probe_audio_duration (some ("N/A".data)) = 3600 :=
  probe_audio_duration_default.2.1 ("N/A".data) (by decide)

/-- Counterexample to claim C2 as stated: for an existing input whose
classifier result is `none` and whose database row declares type `video`,
the worker does not mark the concept processed — it runs the video
pipeline (the database type overrides a failed classification). -/
theorem process_none_detection_counterexample :
    process true none ("video".data) = DispatchAction.runVideo ∧
    process true none ("video".data) ≠ DispatchAction.unknownMarkProcessed ∧
    process true none ("video".data) ≠ DispatchAction.giveupMarkProcessed := by
  refine ⟨rfl, ?_, ?_⟩ <;> decide

/-- Claim C2 (amended): when the classifier returns `none`, the worker falls
back to the type declared in the database row and dispatches on it exactly as
if the classifier had returned that type; it marks the concept processed
without artifacts precisely when that fallback type is not one of
video, picture, audio, document_pdf. -/
theorem process_none_detection_falls_back :
    ∀ dbType : List Char,
      process true none dbType = process true (some dbType) dbType ∧
      (process true none dbType = DispatchAction.unknownMarkProcessed ↔
        (dbType ≠ "video".data ∧ dbType ≠ "picture".data ∧
         dbType ≠ "audio".data ∧ dbType ≠ "document_pdf".data)) := by
  intro dbType
  constructor
  · rfl
  · unfold process
    simp only [Bool.true_eq_false, if_false, Option.getD_none]
    split_ifs with h1 h2 h3 h4 <;> simp_all

/-- Claim C1: in every video/picture/audio pipeline run the processed flag is
set only after the mandatory transcode returned success, the raw input is
deleted only after the store update succeeded, and a failed transcode leaves
both the flag and the raw file untouched (the PDF pipeline likewise renames
the input only after a successful commit). -/
theorem pipeline_commit_order :
    ∀ transcodeOk dbOk thumbOk textOk renameOk : Bool,
      (commit_order_ok (process_video transcodeOk dbOk).1 &&
       commit_order_ok (process_picture transcodeOk dbOk).1 &&
       commit_order_ok (process_audio transcodeOk dbOk).1 &&
       commit_order_ok (process_document_pdf thumbOk textOk dbOk renameOk).1 &&
       (transcodeOk || (no_commit_effects (process_video transcodeOk dbOk).1 &&
                        no_commit_effects (process_picture transcodeOk dbOk).1 &&
                        no_commit_effects (process_audio transcodeOk dbOk).1)) &&
       (thumbOk || no_commit_effects (process_document_pdf thumbOk textOk dbOk renameOk).1)) =
      true := by
  decide

/-- Claim C8: with both a video and an audio stream present, a format
duration that parses to at most 1.0 s classifies the input as audio, for
every possible outcome of the frame-count and fps probes (they are never
consulted). -/
theorem detect_file_type_cover_art
    (videoOut audioOut durOut : List Char) (d : ℚ)
    (hv : containsSub ("video".data) videoOut = true)
    (ha : containsSub ("audio".data) audioOut = true)
    (hd : parseF64 (trimChars durOut) = some d)
    (hle : d ≤ 1) :
    ∀ nbFramesProbe streamInfoProbe durProbe2
      nbFramesProbeV streamInfoProbeV durProbeV : Option (List Char),
      detect_file_type false (some videoOut) (some audioOut) (some durOut)
        nbFramesProbe streamInfoProbe durProbe2
        nbFramesProbeV streamInfoProbeV durProbeV = some ("audio".data) := by
  intro nf si d2 nv sv dv
  unfold detect_file_type detect_both_streams
  simp [hv, ha, hd, hle]

/-- Witness for C8 at a concrete cover-art probe outcome
(format duration `"1"`, both streams present). -/
theorem detect_file_type_cover_art_witness :
    detect_file_type false (some ("video".data)) (some ("audio".data))
      (some ("1".data)) none none none none none none = some ("audio".data) := by
  have htrim : trimChars ("1".data) = ['1'] := by decide
  have hval : digitsVal ['1'] = 1 := by decide
  have hparse : parseF64 (trimChars ("1".data)) = some 1 := by
    rw [htrim, parseF64_all_digits (by decide) (by decide), hval]
    norm_num
  exact detect_file_type_cover_art ("video".data) ("audio".data) ("1".data) 1
    (by decide) (by decide) hparse (le_refl 1) none none none none none none

/-- Claim C9: translation preserves the cue count and every cue's start and
end timestamps, and any cue whose LLM translation fails (request error,
non-2xx status, missing content field, or empty result after preamble
stripping, i.e. `translate_text_via_llama` yields `none`) keeps its original
source text; the per-cue loop is total, so no cue failure aborts the
pipeline. -/
theorem translate_subtitle_file_preserves
    (cues : List VttCue) (responseOf : ℕ → LlamaResponse) :
    (translate_subtitle_file cues responseOf).length = cues.length ∧
    ∀ k : ℕ,
      ((translate_subtitle_file cues responseOf).get? k).map VttCue.start =
        (cues.get? k).map VttCue.start ∧
      ((translate_subtitle_file cues responseOf).get? k).map VttCue.stop =
        (cues.get? k).map VttCue.stop ∧
      (translate_text_via_llama (responseOf k) = none →
        ((translate_subtitle_file cues responseOf).get? k).map VttCue.text =
          (cues.get? k).map VttCue.text) := by
  refine ⟨translate_cues_aux_length responseOf cues 0, fun k => ?_⟩
  have h := translate_cues_aux_get? responseOf cues 0 k
  simp only [translate_subtitle_file] at *
  rw [h]
  cases hc : cues.get? k with
  | none => simp
  | some cue =>
    refine ⟨?_, ?_, ?_⟩
    · simp [translate_cue_step]
      cases ht : translate_text_via_llama (responseOf k) with
      | none => simp
      | some t =>
        by_cases hne : t = [] <;> simp [hne]
    · simp [translate_cue_step]
      cases ht : translate_text_via_llama (responseOf k) with
      | none => simp
      | some t =>
        by_cases hne : t = [] <;> simp [hne]
    · intro hfail
      simp [translate_cue_step, hfail]

/-- Witness for C9: one cue, a failing LLM request; the output keeps the
original text and timestamps. -/
theorem translate_subtitle_file_preserves_witness :
    ((translate_subtitle_file
        [{ start := "00:00:01.000".data, stop := "00:00:02.000".data,
           text := "Hello".data }]
        (fun _ => LlamaResponse.requestFailed)).get? 0).map VttCue.text =
      some ("Hello".data) := by
  have h := (translate_subtitle_file_preserves
    [{ start := "00:00:01.000".data, stop := "00:00:02.000".data,
       text := "Hello".data }]
    (fun _ => LlamaResponse.requestFailed)).2 0
  rw [h.2.2 rfl]
  rfl


/-- Counterexample to claim C3 as stated: for the odd 101×101 source (with
min_dimension 144, threshold 1, one quality step) the first ladder entry is
the source resolution itself, pushed before any rounding or clamping: its
dimensions are odd and below min_dimension. -/
theorem transcode_video_ladder_counterexample :
    transcode_video_ladder 101 101 144 1 1 [{ label := "full".data, scale_divisor := 2 }] =
      [(101, 101, "full".data)] ∧ 101 % 2 = 1 ∧ ¬ (144 ≤ 101) := by
  refine ⟨?_, by norm_num, by norm_num⟩
  show ladder_loop ((101 : ℚ) / (101 : ℚ)) 144
      [{ label := "full".data, scale_divisor := 2 }] 101 101 [] =
    [(101, 101, "full".data)]
  rw [ladder_loop_cons, ladder_loop]
  rw [if_pos]
  · simp
  · constructor
    · push_cast
      rw [sub_self, abs_zero]
      norm_num
    · simp

/-- Claim C3 (amended): every ladder entry preserves the source aspect ratio
within 0.01 and no (width, height) pair repeats; the first entry (when the
ladder is non-empty) is the source resolution verbatim, and every entry
after the first has both dimensions even and at least the even-snapped
minimum dimension (hence at least min_dimension whenever min_dimension is
even). -/
theorem transcode_video_ladder_invariants
    (src_w src_h min_dimension threshold_2k_pixels max_resolution_steps : ℕ)
    (quality_steps : List QualityStep) (hw : 0 < src_w) (hh : 0 < src_h) :
    (∀ e ∈ transcode_video_ladder src_w src_h min_dimension threshold_2k_pixels
        max_resolution_steps quality_steps,
      |(e.1 : ℚ) / (e.2.1 : ℚ) - (src_w : ℚ) / (src_h : ℚ)| ≤ 1/100) ∧
    ((transcode_video_ladder src_w src_h min_dimension threshold_2k_pixels
        max_resolution_steps quality_steps).map (fun e => (e.1, e.2.1))).Nodup ∧
    (∀ e ∈ (transcode_video_ladder src_w src_h min_dimension threshold_2k_pixels
        max_resolution_steps quality_steps).take 1, e.1 = src_w ∧ e.2.1 = src_h) ∧
    (∀ e ∈ (transcode_video_ladder src_w src_h min_dimension threshold_2k_pixels
        max_resolution_steps quality_steps).drop 1, snapped_dims min_dimension e) := by
  unfold transcode_video_ladder
  exact ⟨ladder_loop_mem_aspect _ _ _ _ _ [] (by simp),
    ladder_loop_pair_nodup _ _ _ _ _ [] (by simp),
    (ladder_loop_head_structure _ _ _ _ _ rfl).1,
    (ladder_loop_head_structure _ _ _ _ _ rfl).2⟩

/-- Witness for C3 (amended) at a concrete 1920×1080 source with a two-step
ladder. -/
theorem transcode_video_ladder_invariants_witness :
    (∀ e ∈ transcode_video_ladder 1920 1080 144 1 2
        [{ label := "full".data, scale_divisor := 2 },
         { label := "half".data, scale_divisor := 2 }],
      |(e.1 : ℚ) / (e.2.1 : ℚ) - (1920 : ℚ) / (1080 : ℚ)| ≤ 1/100) ∧
    ((transcode_video_ladder 1920 1080 144 1 2
        [{ label := "full".data, scale_divisor := 2 },
         { label := "half".data, scale_divisor := 2 }]).map (fun e => (e.1, e.2.1))).Nodup ∧
    (∀ e ∈ (transcode_video_ladder 1920 1080 144 1 2
        [{ label := "full".data, scale_divisor := 2 },
         { label := "half".data, scale_divisor := 2 }]).take 1,
      e.1 = 1920 ∧ e.2.1 = 1080) ∧
    (∀ e ∈ (transcode_video_ladder 1920 1080 144 1 2
        [{ label := "full".data, scale_divisor := 2 },
         { label := "half".data, scale_divisor := 2 }]).drop 1, snapped_dims 144 e) :=
  transcode_video_ladder_invariants 1920 1080 144 1 2
    [{ label := "full".data, scale_divisor := 2 },
     { label := "half".data, scale_divisor := 2 }] (by norm_num) (by norm_num)

/-- Counterexample to claim C6 as stated: with duration 250, target 100,
max 200 and the single silence (49, 51), the silence midpoint 50 lies in the
claimed search window [target − 60, min(duration, cur + max)] = [40, 200]
for the first step (cur = 0), yet the chosen split is the cap 200, not a
silence midpoint: the code clamps the window's lower edge to cur + 60. -/
theorem compute_split_points_counterexample :
    compute_split_points 250 [⟨49, 51⟩] 100 200 = [200] ∧
    ((0 : ℚ) + 100 - 60 ≤ SilenceInterval.midpoint ⟨49, 51⟩ ∧
      SilenceInterval.midpoint ⟨49, 51⟩ ≤ min 250 ((0 : ℚ) + 200)) ∧
    ∀ iv ∈ [(⟨49, 51⟩ : SilenceInterval)], iv.midpoint ≠ 200 := by
  refine ⟨?_, ⟨?_, ?_⟩, ?_⟩
  · have hf : split_detection_fuel 250 = 251 := by
      norm_num [split_detection_fuel]
      omega
    rw [compute_split_points, hf, csp_aux_unfold]
    norm_num [SilenceInterval.midpoint, List.filter, pick_best_silence, min_def]
    rw [csp_aux_unfold]
    norm_num
  · norm_num [SilenceInterval.midpoint]
  · norm_num [SilenceInterval.midpoint, min_def]
  · intro iv hiv
    rcases List.mem_singleton.1 hiv with rfl
    norm_num [SilenceInterval.midpoint]

/-- Claim C6 (amended): every split chosen by `compute_split_points` is, for
the position `c` at which it was chosen, either the midpoint of a silence
interval whose midpoint lies in the code's search window
[max(target − 60, c + 60), min(c + max_chunk_secs, duration)] (with
target = c + target_chunk_secs), or — when no silence midpoint lies in that
window — the hard cap min(c + max_chunk_secs, duration). -/
theorem compute_split_points_silence_or_cap
    (duration : ℚ) (silences : List SilenceInterval) (target_secs max_secs : ℚ) :
    ∀ s ∈ compute_split_points duration silences target_secs max_secs,
      ∃ c : ℚ,
        (∃ iv ∈ silences, iv.midpoint = s ∧
          max (c + target_secs - 60) (c + 60) ≤ iv.midpoint ∧
          iv.midpoint ≤ min (c + max_secs) duration) ∨
        (s = min (c + max_secs) duration ∧
          ∀ iv ∈ silences,
            ¬(max (c + target_secs - 60) (c + 60) ≤ iv.midpoint ∧
              iv.midpoint ≤ min (c + max_secs) duration)) := by
  intro s hs
  exact compute_split_points_aux_spec silences target_secs max_secs duration _ 0 s hs

/-- Witness for C6 (amended) at the split 200 of the concrete run with
duration 250, silence (49, 51), target 100, max 200. -/
theorem compute_split_points_silence_or_cap_witness :
    ∃ c : ℚ,
      (∃ iv ∈ [(⟨49, 51⟩ : SilenceInterval)], iv.midpoint = 200 ∧
        max (c + 100 - 60) (c + 60) ≤ iv.midpoint ∧
        iv.midpoint ≤ min (c + 200) 250) ∨
      ((200 : ℚ) = min (c + 200) 250 ∧
        ∀ iv ∈ [(⟨49, 51⟩ : SilenceInterval)],
          ¬(max (c + 100 - 60) (c + 60) ≤ iv.midpoint ∧
            iv.midpoint ≤ min (c + 200) 250)) := by
  refine compute_split_points_silence_or_cap 250 [⟨49, 51⟩] 100 200 200 ?_
  have heval : compute_split_points 250 [⟨49, 51⟩] 100 200 = [200] := by
    have hf : split_detection_fuel 250 = 251 := by
      norm_num [split_detection_fuel]
      omega
    rw [compute_split_points, hf, csp_aux_unfold]
    norm_num [SilenceInterval.midpoint, List.filter, pick_best_silence, min_def]
    rw [csp_aux_unfold]
    norm_num
  rw [heval]
  exact List.mem_singleton.2 rfl

/-- Counterexample to claim C7 as stated: with duration 920, target 600,
max 900 and no silences, the candidate split at min(0 + 900, 920) = 900 is
dropped because it would leave a tail under 30 s, so the single chunk is
(0, 920), which exceeds max_chunk_secs = 900 even though a split at 900 was
available. -/
theorem chunk_boundaries_counterexample :
    compute_split_points 920 [] 600 900 = [] ∧
    build_chunk_boundaries [] 920 = [(0, 920)] ∧
    ¬((920 : ℚ) - 0 ≤ 900) := by
  refine ⟨?_, rfl, by norm_num⟩
  have hf : split_detection_fuel 920 = 921 := by
    norm_num [split_detection_fuel]
    omega
  rw [compute_split_points, hf, csp_aux_unfold]
  norm_num [pick_best_silence, min_def, List.filter]

/-- Claim C7 (amended): for every duration and silence list (with the
configuration satisfying 0 < target ≤ max and 60 ≤ max), the chunk boundary
list is a gapless partition of [0, duration]: the first chunk starts at 0,
the last ends at duration, each chunk's end is the next chunk's start, and
every chunk except possibly the last spans at most max_chunk_secs; the
final chunk may exceed max_chunk_secs, but by less than 30 s (the dropped
tail split). -/
theorem chunk_boundaries_partition (duration : ℚ) (silences : List SilenceInterval)
    (target_secs max_secs : ℚ) (hT : 0 < target_secs) (hTM : target_secs ≤ max_secs)
    (hM60 : 60 ≤ max_secs) :
    (build_chunk_boundaries (compute_split_points duration silences target_secs max_secs)
        duration).head?.map Prod.fst = some 0 ∧
    (build_chunk_boundaries (compute_split_points duration silences target_secs max_secs)
        duration).getLast?.map Prod.snd = some duration ∧
    List.Chain' (fun a b => a.2 = b.1)
      (build_chunk_boundaries (compute_split_points duration silences target_secs max_secs)
        duration) ∧
    (∀ p ∈ (build_chunk_boundaries
          (compute_split_points duration silences target_secs max_secs)
          duration).dropLast, p.2 - p.1 ≤ max_secs) ∧
    (∀ lp, (build_chunk_boundaries
          (compute_split_points duration silences target_secs max_secs)
          duration).getLast? = some lp → lp.2 - lp.1 < max_secs + 30) := by
  refine ⟨build_chunk_boundaries_aux_head duration 0 _, ?_,
    build_chunk_boundaries_aux_chain duration _ 0, ?_, ?_⟩
  · rw [build_chunk_boundaries, build_chunk_boundaries_aux_getLast]
    rfl
  · exact build_chunk_boundaries_aux_dropLast duration max_secs _ 0
      (compute_split_points_aux_chain silences target_secs max_secs duration _ 0)
  · intro lp hlp
    rw [build_chunk_boundaries, build_chunk_boundaries_aux_getLast] at hlp
    have hlp' := (Option.some.inj hlp).symm
    subst hlp'
    have hlast := compute_split_points_aux_last silences target_secs max_secs duration
      hT hTM hM60 (split_detection_fuel duration) 0
      (split_detection_fuel_sufficient duration target_secs hT)
    exact hlast

/-- Witness for C7 (amended) at duration 1000, one silence (595, 605),
target 600, max 900. -/
theorem chunk_boundaries_partition_witness :
    (build_chunk_boundaries (compute_split_points 1000 [⟨595, 605⟩] 600 900)
        1000).head?.map Prod.fst = some 0 ∧
    (build_chunk_boundaries (compute_split_points 1000 [⟨595, 605⟩] 600 900)
        1000).getLast?.map Prod.snd = some 1000 ∧
    List.Chain' (fun a b => a.2 = b.1)
      (build_chunk_boundaries (compute_split_points 1000 [⟨595, 605⟩] 600 900) 1000) ∧
    (∀ p ∈ (build_chunk_boundaries (compute_split_points 1000 [⟨595, 605⟩] 600 900)
        1000).dropLast, p.2 - p.1 ≤ 900) ∧
    (∀ lp, (build_chunk_boundaries (compute_split_points 1000 [⟨595, 605⟩] 600 900)
        1000).getLast? = some lp → lp.2 - lp.1 < 900 + 30) :=
  chunk_boundaries_partition 1000 [⟨595, 605⟩] 600 900 (by norm_num) (by norm_num)
    (by norm_num)

/-- Counterexample to claim C4 as stated, in two parts.  First: for a
manifest with one audio AdaptationSet and one untitled audio track, the
post-processor takes the early return and inserts zero labels, not one.
Second: with tracks titled eng, eng, eng (2), the two-pass disambiguation
labels the second track eng (2), colliding with the literal title of the
third track, so the inserted labels are not pairwise distinct. -/
theorem post_process_dash_manifest_counterexample :
    (post_process_dash_manifest
        ["  <AdaptationSet id=\"2\" contentType=\"audio\">".data]
        [("audio_0.webm".data, "eng".data, [])] =
      ["  <AdaptationSet id=\"2\" contentType=\"audio\">".data] ∧
     inserted_labels
        ["  <AdaptationSet id=\"2\" contentType=\"audio\">".data]
        [("audio_0.webm".data, "eng".data, [])] = [] ∧
     count_audio_adaptation_lines
        ["  <AdaptationSet id=\"2\" contentType=\"audio\">".data] = 1 ∧
     ([("audio_0.webm".data, "eng".data, [])] :
        List (List Char × List Char × List Char)).length = 1) ∧
    ((disambiguate_labels (raw_labels
        [("a".data, [], "eng".data), ("b".data, [], "eng".data),
         ("c".data, [], "eng (2)".data)])).getD 1 [] =
      (disambiguate_labels (raw_labels
        [("a".data, [], "eng".data), ("b".data, [], "eng".data),
         ("c".data, [], "eng (2)".data)])).getD 2 [] ∧
     (disambiguate_labels (raw_labels
        [("a".data, [], "eng".data), ("b".data, [], "eng".data),
         ("c".data, [], "eng (2)".data)])).length = 3) := by
  have hdig : Nat.digits 10 2 = [2] := by
    rw [Nat.digits_def' (by norm_num : (1 : ℕ) < 10) (by norm_num : (0 : ℕ) < 2)]
    norm_num
  have hd2 : decStr 2 = ['2'] := by
    unfold decStr
    rw [if_neg (by norm_num), hdig]
    decide
  refine ⟨⟨by decide, by decide, by decide, by decide⟩, ?_, by decide⟩
  have hg1 : (disambiguate_labels (raw_labels
      [("a".data, [], "eng".data), ("b".data, [], "eng".data),
       ("c".data, [], "eng (2)".data)])).getD 1 [] = "eng (2)".data := by
    rw [disambiguate_labels_getD _ 1 (by decide), if_pos (by decide), if_neg (by decide)]
    have hc : ((raw_labels
        [("a".data, [], "eng".data), ("b".data, [], "eng".data),
         ("c".data, [], "eng (2)".data)]).take (1 + 1)).count
        ((raw_labels
          [("a".data, [], "eng".data), ("b".data, [], "eng".data),
           ("c".data, [], "eng (2)".data)]).getD 1 []) = 2 := by decide
    rw [hc, hd2]
    decide
  have hg2 : (disambiguate_labels (raw_labels
      [("a".data, [], "eng".data), ("b".data, [], "eng".data),
       ("c".data, [], "eng (2)".data)])).getD 2 [] = "eng (2)".data := by
    rw [disambiguate_labels_getD _ 2 (by decide), if_neg (by decide)]
    decide
  rw [hg1, hg2]

/-- Claim C4 (amended): when the manifest contains exactly N audio
AdaptationSet opening tags for an N-track audio list, and the early-return
case does not apply (N ≥ 2 or some track has a title), the post-processor
inserts exactly the N disambiguated labels, one after each audio tag in
order; labels of tracks sharing the same raw label are pairwise distinct
(the k-th occurrence gets suffix (k)), though a suffixed label can coincide
with a distinct raw label that literally ends in (k).  When N ≤ 1 and no
track has a title the manifest is left unchanged. -/
theorem post_process_dash_manifest_label_count
    (mpd_lines : List (List Char))
    (audio_info : List (List Char × List Char × List Char))
    (hcount : count_audio_adaptation_lines mpd_lines = audio_info.length)
    (hguard : ¬(audio_info.length ≤ 1 ∧ audio_info.all (fun t => t.2.2.isEmpty))) :
    inserted_labels mpd_lines audio_info = disambiguate_labels (raw_labels audio_info) ∧
    (inserted_labels mpd_lines audio_info).length = audio_info.length ∧
    ∀ i j : ℕ, i < j → j < audio_info.length →
      (raw_labels audio_info).getD i [] = (raw_labels audio_info).getD j [] →
      (inserted_labels mpd_lines audio_info).getD i [] ≠
        (inserted_labels mpd_lines audio_info).getD j [] := by
  have hlenraw : (raw_labels audio_info).length = audio_info.length := by
    simp [raw_labels]
  have hlen : (disambiguate_labels (raw_labels audio_info)).length = audio_info.length := by
    rw [disambiguate_labels_length, hlenraw]
  have hins : inserted_labels mpd_lines audio_info =
      disambiguate_labels (raw_labels audio_info) := by
    rw [inserted_labels, if_neg hguard,
      inserted_labels_aux_all mpd_lines (disambiguate_labels (raw_labels audio_info))
        audio_info.length 0 hlen (Nat.zero_le _)
        (by simpa [count_audio_adaptation_lines] using hcount),
      List.drop_zero]
  refine ⟨hins, by rw [hins, hlen], ?_⟩
  intro i j hij hj hraweq
  rw [hins]
  exact disambiguate_labels_group_distinct (raw_labels audio_info) i j hij
    (by rw [hlenraw]; exact hj) hraweq

/-- Witness for C4 (amended) at a two-track manifest (eng and ces, no
titles). -/
theorem post_process_dash_manifest_label_count_witness :
    inserted_labels
        ["<AdaptationSet id=\"1\" contentType=\"audio\">".data,
         "<AdaptationSet id=\"2\" contentType=\"audio\">".data]
        [("a.webm".data, "eng".data, []), ("b.webm".data, "ces".data, [])] =
      disambiguate_labels (raw_labels
        [("a.webm".data, "eng".data, []), ("b.webm".data, "ces".data, [])]) ∧
    (inserted_labels
        ["<AdaptationSet id=\"1\" contentType=\"audio\">".data,
         "<AdaptationSet id=\"2\" contentType=\"audio\">".data]
        [("a.webm".data, "eng".data, []), ("b.webm".data, "ces".data, [])]).length =
      ([("a.webm".data, "eng".data, []), ("b.webm".data, "ces".data, [])] :
        List (List Char × List Char × List Char)).length ∧
    ∀ i j : ℕ, i < j →
      j < ([("a.webm".data, "eng".data, []), ("b.webm".data, "ces".data, [])] :
        List (List Char × List Char × List Char)).length →
      (raw_labels
        [("a.webm".data, "eng".data, []), ("b.webm".data, "ces".data, [])]).getD i [] =
        (raw_labels
          [("a.webm".data, "eng".data, []), ("b.webm".data, "ces".data, [])]).getD j [] →
      (inserted_labels
        ["<AdaptationSet id=\"1\" contentType=\"audio\">".data,
         "<AdaptationSet id=\"2\" contentType=\"audio\">".data]
        [("a.webm".data, "eng".data, []), ("b.webm".data, "ces".data, [])]).getD i [] ≠
        (inserted_labels
          ["<AdaptationSet id=\"1\" contentType=\"audio\">".data,
           "<AdaptationSet id=\"2\" contentType=\"audio\">".data]
          [("a.webm".data, "eng".data, []), ("b.webm".data, "ces".data, [])]).getD j [] :=
  post_process_dash_manifest_label_count
    ["<AdaptationSet id=\"1\" contentType=\"audio\">".data,
     "<AdaptationSet id=\"2\" contentType=\"audio\">".data]
    [("a.webm".data, "eng".data, []), ("b.webm".data, "ces".data, [])]
    (by decide) (by decide)

/-- Claim C5: for every well-formed VTT timestamp `HH:MM:SS.mmm` (two-digit
hours, minutes < 60, seconds < 60, three fractional digits),
`format_vtt_timestamp` inverts `parse_vtt_timestamp`. -/
theorem vtt_timestamp_roundtrip (H M S mmm : ℕ)
    (hH : H < 100) (hM : M < 60) (hS : S < 60) (hmmm : mmm < 1000) :
    (parse_vtt_timestamp (mk_vtt_timestamp H M S mmm)).map format_vtt_timestamp =
      some (mk_vtt_timestamp H M S mmm) := by
  have hdig : ∀ (w n : ℕ), ∀ c ∈ padZeros w n, c.isDigit = true := fun w n c hc =>
    (digit_char_facts c (padZeros_chars w n c hc)).1
  have hcolon : ∀ (w n : ℕ), ∀ c ∈ padZeros w n, c ≠ ':' := fun w n c hc =>
    (digit_char_facts c (padZeros_chars w n c hc)).2.1
  have hws : ∀ (w n : ℕ), ∀ c ∈ padZeros w n, isRustWs c = false := fun w n c hc =>
    (digit_char_facts c (padZeros_chars w n c hc)).2.2.1
  have htail_colon : ∀ c ∈ padZeros 2 S ++ '.' :: padZeros 3 mmm, c ≠ ':' := by
    intro c hc
    rcases List.mem_append.1 hc with h | h
    · exact hcolon 2 S c h
    · rcases List.mem_cons.1 h with rfl | h'
      · decide
      · exact hcolon 3 mmm c h'
  have htail_ws : ∀ c ∈ padZeros 2 S ++ '.' :: padZeros 3 mmm, isRustWs c = false := by
    intro c hc
    rcases List.mem_append.1 hc with h | h
    · exact hws 2 S c h
    · rcases List.mem_cons.1 h with rfl | h'
      · decide
      · exact hws 3 mmm c h'
  have hsplit : splitChar ':' (mk_vtt_timestamp H M S mmm) =
      [padZeros 2 H, padZeros 2 M, padZeros 2 S ++ '.' :: padZeros 3 mmm] := by
    unfold mk_vtt_timestamp
    rw [splitChar_append ':' _ _ (hcolon 2 H),
      splitChar_append ':' _ _ (hcolon 2 M),
      splitChar_sep_free ':' _ htail_colon]
  have hp1 : parseF64 (padZeros 2 H) = some ((H : ℕ) : ℚ) := by
    rw [parseF64_all_digits (padZeros_ne_nil 2 H) (hdig 2 H), digitsVal_padZeros]
  have hp2 : parseF64 (padZeros 2 M) = some ((M : ℕ) : ℚ) := by
    rw [parseF64_all_digits (padZeros_ne_nil 2 M) (hdig 2 M), digitsVal_padZeros]
  have hp3 : parseF64 (padZeros 2 S ++ '.' :: padZeros 3 mmm) =
      some ((S : ℚ) + (mmm : ℚ) / 1000) := by
    rw [parseF64_fraction _ _ (hdig 2 S) (hdig 3 mmm) (padZeros_ne_nil 2 S),
      digitsVal_padZeros, digitsVal_padZeros,
      padZeros_length_eq (by norm_num) (by simpa using hmmm)]
    norm_num
  have hparse : parse_vtt_timestamp (mk_vtt_timestamp H M S mmm) =
      some ((H : ℚ) * 3600 + (M : ℚ) * 60 + ((S : ℚ) + (mmm : ℚ) / 1000)) := by
    unfold parse_vtt_timestamp
    rw [hsplit]
    rw [if_neg (by simp)]
    simp only [List.getD_cons_zero, List.getD_cons_succ]
    rw [trimChars_eq_self (hws 2 H), trimChars_eq_self (hws 2 M),
      trimChars_eq_self htail_ws, hp1, hp2, hp3]
    rfl
  have hmfrac0 : (0 : ℚ) ≤ (mmm : ℚ) / 1000 := by positivity
  have hmfrac1 : (mmm : ℚ) / 1000 < 1 := by
    rw [div_lt_one (by norm_num)]
    exact_mod_cast hmmm
  have hMle : (M : ℚ) ≤ 59 := by exact_mod_cast Nat.le_of_lt_succ hM
  have hSle : (S : ℚ) ≤ 59 := by exact_mod_cast Nat.le_of_lt_succ hS
  set q : ℚ := (H : ℚ) * 3600 + (M : ℚ) * 60 + ((S : ℚ) + (mmm : ℚ) / 1000) with hqdef
  have hq0 : ¬ q < 0 := by
    rw [hqdef]
    push_neg
    positivity
  have hfloor3600 : ⌊q / 3600⌋ = (H : ℤ) := by
    refine floor_div_of_bounds q 3600 (H : ℤ) ((M : ℚ) * 60 + ((S : ℚ) + (mmm : ℚ) / 1000))
      (by norm_num) ?_ (by positivity) ?_
    · rw [hqdef]; push_cast; ring
    · linarith
  have hmod3600 : rustFmod q 3600 = (M : ℚ) * 60 + ((S : ℚ) + (mmm : ℚ) / 1000) := by
    refine rustFmod_of_bounds q 3600 (H : ℤ) _ (by norm_num) ?_ (by positivity) ?_
    · rw [hqdef]; push_cast; ring
    · linarith
  have hfloor60 : ⌊((M : ℚ) * 60 + ((S : ℚ) + (mmm : ℚ) / 1000)) / 60⌋ = (M : ℤ) := by
    refine floor_div_of_bounds _ 60 (M : ℤ) ((S : ℚ) + (mmm : ℚ) / 1000)
      (by norm_num) ?_ (by positivity) ?_
    · push_cast; ring
    · linarith
  have hmod60 : rustFmod q 60 = (S : ℚ) + (mmm : ℚ) / 1000 := by
    refine rustFmod_of_bounds q 60 ((H : ℤ) * 60 + (M : ℤ)) _ (by norm_num) ?_
      (by positivity) ?_
    · rw [hqdef]; push_cast; ring
    · linarith
  have hsecval : ((S : ℚ) + (mmm : ℚ) / 1000) * 1000 + 1 / 2 =
      ((1000 * S + mmm : ℕ) : ℚ) + 1 / 2 := by
    push_cast
    ring
  have hfloorsec : ⌊((S : ℚ) + (mmm : ℚ) / 1000) * 1000 + 1 / 2⌋ =
      ((1000 * S + mmm : ℕ) : ℤ) := by
    rw [hsecval, Int.floor_eq_iff]
    constructor
    · push_cast; linarith
    · push_cast; linarith
  have hfmt : format_f64_width6_prec3 ((S : ℚ) + (mmm : ℚ) / 1000) =
      padZeros 2 S ++ '.' :: padZeros 3 mmm := by
    have hdiv : (1000 * S + mmm) / 1000 = S := by omega
    have hmod : (1000 * S + mmm) % 1000 = mmm := by omega
    simp only [format_f64_width6_prec3]
    rw [hfloorsec, Int.toNat_natCast, hdiv, hmod]
  have hformat : format_vtt_timestamp q = mk_vtt_timestamp H M S mmm := by
    simp only [format_vtt_timestamp]
    rw [if_neg hq0]
    rw [hfloor3600, hmod3600, hfloor60, hmod60, Int.toNat_natCast, Int.toNat_natCast,
      hfmt]
    rfl
  rw [hparse]
  show some (format_vtt_timestamp q) = some (mk_vtt_timestamp H M S mmm)
  rw [hformat]

/-- Witness for C5 at the concrete timestamp 12:34:56.789. -/
theorem vtt_timestamp_roundtrip_witness :
    (parse_vtt_timestamp (mk_vtt_timestamp 12 34 56 789)).map format_vtt_timestamp =
      some (mk_vtt_timestamp 12 34 56 789) :=
  vtt_timestamp_roundtrip 12 34 56 789 (by norm_num) (by norm_num) (by norm_num)
    (by norm_num)
